import Mathlib

/-
  Verification of the storage / memory / paging core of a PintOS derivative.

  The definitions below are a shallow embedding of the C sources:
    - filesys/inode.c   (multilevel indexed inode layer, FS variant)
    - filesys/cache.c   (block cache with shared/exclusive buffer locks)
    - vm/frame.c        (frame table, second-chance eviction)
    - vm/swap.c         (swap bitmap and 8-sector slots)
    - vm/page.c         (supplemental page table)
    - userprog/syscall.c (mmap, pin/unpin)

  Modelling conventions:
    - The block cache is write-back and transparent to sequential
      executions, so cached sectors and on-disk sectors are modelled as a
      single state (a map from sector number to sector content).
    - The C code accesses any given sector through exactly one typed view:
      the byte payload for data sectors (memcpy/memset), the uint32 array
      view for index sectors (block_sector_t pointers), and the
      struct inode_disk view for the inode header (whose sectors[] array
      coincides with the uint32 view, and whose length field is disjoint
      from it).  A sector value therefore carries the three views as
      separate fields; the tree invariant proved below establishes the
      disjointness of the sector roles that the C code relies on.
    - free_map_allocate is modelled as an unbounded allocator handing out
      the sector number nextFree and incrementing it; running out of disk
      space (like running out of kernel heap) is outside the model.
    - Machine integers are Nat / Int with explicit wrap-around where the C
      computation can wrap (size_t subtraction in the stack-growth check).
-/

namespace PintOS

/-! ## Constants (filesys/inode.c, devices/block.h) -/

def BLOCK_SECTOR_SIZE : Nat := 512

def DIRECT_SECTOR_MAXN : Nat := 123

def SECTOR_MAXN : Nat := 125

def POINTER_MAXN : Nat := 128

/-- INODE_BYTE_MAXN from inode.c: maximal file size in bytes. -/
def INODE_BYTE_MAXN : Nat :=
  (DIRECT_SECTOR_MAXN + POINTER_MAXN + POINTER_MAXN * POINTER_MAXN) * BLOCK_SECTOR_SIZE

/-- Number of addressable logical data blocks of an inode. -/
def NBLOCKS : Nat := DIRECT_SECTOR_MAXN + POINTER_MAXN + POINTER_MAXN * POINTER_MAXN

/-! ## Sectors and the disk -/

/-- Content of one 512-byte sector, carrying the three typed views the C
code uses: the uint32 pointer-array view (index sectors and the header
sectors[] array), the header length field, and the raw byte view (data
sectors). -/
structure Sector where
  ptrs : Nat → Nat
  length : Int
  bytes : Nat → Nat

/-- A sector filled with zero bytes (cache_setzero). -/
def zeroSector : Sector :=
  { ptrs := fun _ => 0, length := 0, bytes := fun _ => 0 }

/-- The disk together with the free map, modelled as an unbounded
allocator: free_map_allocate returns nextFree and increments it. -/
structure Disk where
  sec : Nat → Sector
  nextFree : Nat

def Disk.setSec (d : Disk) (s : Nat) (v : Sector) : Disk :=
  { d with sec := fun t => if t = s then v else d.sec t }

/-- Read the uint32 view of sector t at index o (current_data[o]). -/
def ptrAt (d : Disk) (t o : Nat) : Nat := (d.sec t).ptrs o

/-- Write the uint32 view of a sector at index i (current_data[i] = v). -/
def Sector.setPtr (x : Sector) (i v : Nat) : Sector :=
  { x with ptrs := fun j => if j = i then v else x.ptrs j }

/-- memcpy (x.bytes + dst, src + srcOfs, len). -/
def Sector.memcpyIn (x : Sector) (dst : Nat) (src : Nat → Nat) (srcOfs len : Nat) : Sector :=
  { x with bytes := fun j => if dst ≤ j ∧ j < dst + len then src (srcOfs + (j - dst)) else x.bytes j }

/-- Write the header length field (disk_inode->length = l). -/
def Sector.setLength (x : Sector) (l : Int) : Sector :=
  { x with length := l }

/-! ## In-memory inode (struct inode, FS variant) -/

structure Inode where
  sector : Nat
  open_cnt : Nat
  removed : Bool
  deny_write_cnt : Nat
  write_cnt : Nat

/-! ## Recursive erase (inode_erase_recursive / inode_erase / inode_close)

The erase functions only read the disk and emit frees (cache_free +
free_map_release); the model returns the list of sector numbers freed, in
order. -/

/-- get_hierarchy from inode.c: (i >= 123) + (i >= 124). -/
def get_hierarchy (i : Nat) : Nat :=
  (if DIRECT_SECTOR_MAXN ≤ i then 1 else 0) + (if DIRECT_SECTOR_MAXN + 1 ≤ i then 1 else 0)

/-- inode_erase_recursive from inode.c, translated verbatim: note that the
recursive call passes the same `sector` argument, not `ptrs[i]`. -/
def inode_erase_recursive (d : Disk) (sector : Nat) : Nat → List Nat
  | 0 => [sector]
  | h + 1 =>
    (((List.range POINTER_MAXN).filter fun i => ptrAt d sector i != 0).flatMap fun _ =>
        inode_erase_recursive d sector h) ++ [sector]

/-- inode_erase from inode.c: free every nonzero slot of the header to its
hierarchy depth, then free the inode sector itself. -/
def inode_erase (d : Disk) (ino : Inode) : List Nat :=
  (((List.range SECTOR_MAXN).filter fun i => ptrAt d ino.sector i != 0).flatMap fun i =>
      inode_erase_recursive d (ptrAt d ino.sector i) (get_hierarchy i)) ++
    inode_erase_recursive d ino.sector 0

/-- inode_close from inode.c, restricted to its observable frees: on the
last close of a removed inode, run inode_erase; otherwise free nothing. -/
def inode_close_freed (d : Disk) (ino : Inode) : List Nat :=
  if ino.open_cnt - 1 = 0 then (if ino.removed then inode_erase d ino else []) else []

/-- Intended recursive erase, following the specification: recurse into the
child pointer ptrs[i], freeing reachable sectors in post-order. -/
def spec_erase_recursive (d : Disk) (sector : Nat) : Nat → List Nat
  | 0 => [sector]
  | h + 1 =>
    (((List.range POINTER_MAXN).filter fun i => ptrAt d sector i != 0).flatMap fun i =>
        spec_erase_recursive d (ptrAt d sector i) h) ++ [sector]

/-! A concrete removed inode used to exhibit the erase bug: the inode lives
in sector 5, its singly indirect slot (index 123) points to sector 2, and
sector 2 in turn points to the data sector 3. -/

def eraseBugDisk : Disk :=
  { sec := fun s =>
      if s = 5 then { zeroSector with ptrs := fun i => if i = 123 then 2 else 0 }
      else if s = 2 then { zeroSector with ptrs := fun i => if i = 0 then 3 else 0 }
      else zeroSector
    nextFree := 6 }

def eraseBugInode : Inode :=
  { sector := 5, open_cnt := 1, removed := true, deny_write_cnt := 0, write_cnt := 0 }

/-- Claim C2: when the last reference to a removed inode is closed, every
nonzero sector pointer in the inode is freed recursively to the appropriate
depth, each reachable data and indirect sector being released in
post-order, and finally the inode's own sector is freed.  The code violates
this: on an inode (sector 5) whose singly indirect slot points to sector 2
which points to data sector 3, closing the last reference frees sector 2
twice and never frees the data sector 3 (the recursion descends into
`sector` instead of `ptrs[i]`), while the intended post-order erase frees
3, then 2, then 5. -/
theorem claim_c2_erase_bug :
    inode_close_freed eraseBugDisk eraseBugInode = [2, 2, 5] ∧
    3 ∉ inode_close_freed eraseBugDisk eraseBugInode ∧
    (((List.range SECTOR_MAXN).filter fun i => ptrAt eraseBugDisk 5 i != 0).flatMap fun i =>
        spec_erase_recursive eraseBugDisk (ptrAt eraseBugDisk 5 i) (get_hierarchy i)) ++
        spec_erase_recursive eraseBugDisk 5 0 = [3, 2, 5] := by
  refine ⟨by decide, by decide, by decide⟩

/-! ## Sparse indirect addressing (resolve_offset / get_data_block) -/

/-- resolve_offset from inode.c: path of uint32 indices from the inode
header down to the data block with logical index sector_id.  The empty
list stands for the NOT_REACHED case (sector_id out of range). -/
def resolve_offset (sector_id : Nat) : List Nat :=
  if sector_id < DIRECT_SECTOR_MAXN then
    [sector_id]
  else
    let s1 := sector_id - DIRECT_SECTOR_MAXN
    if s1 < POINTER_MAXN then
      [DIRECT_SECTOR_MAXN + s1 / POINTER_MAXN, s1 % POINTER_MAXN]
    else
      let s2 := s1 - POINTER_MAXN
      if s2 < POINTER_MAXN * POINTER_MAXN then
        [DIRECT_SECTOR_MAXN + 1 + s2 / (POINTER_MAXN * POINTER_MAXN),
         s2 / POINTER_MAXN, s2 % POINTER_MAXN]
      else []

/-- The descent loop of get_data_block from inode.c.  Sequentially, each
loop iteration either follows a nonzero pointer down one level, stops at a
hole (allocate = false), or allocates a fresh zeroed sector via
free_map_allocate, links it into the parent slot, marks the parent dirty
and descends into it (the C code re-runs the loop at the same level after
allocating and then follows the now-nonzero pointer, which is the same
thing sequentially).  Returns the updated disk and the sector holding the
data block, or none for a hole. -/
def get_data_block_walk (d : Disk) (cur : Nat) : List Nat → Bool → Disk × Option Nat
  | [], _ => (d, none)
  | o :: rest, allocate =>
    let p := ptrAt d cur o
    if p ≠ 0 then
      match rest with
      | [] => (d, some p)
      | _ :: _ => get_data_block_walk d p rest allocate
    else if !allocate then
      (d, none)
    else
      let n := d.nextFree
      let d1 := d.setSec cur ((d.sec cur).setPtr o n)
      let d2 := { d1 with nextFree := n + 1 }
      let d3 := d2.setSec n zeroSector
      match rest with
      | [] => (d3, some n)
      | _ :: _ => get_data_block_walk d3 n rest allocate

/-- get_data_block from inode.c: walk from the inode header sector along
the path resolve_offset (offset / BLOCK_SECTOR_SIZE). -/
def get_data_block (d : Disk) (inodeSector : Nat) (offset : Nat) (allocate : Bool) :
    Disk × Option Nat :=
  get_data_block_walk d inodeSector (resolve_offset (offset / BLOCK_SECTOR_SIZE)) allocate

/-- inode_length from inode.c: read the header length field through the
cache. -/
def inode_length (d : Disk) (ino : Inode) : Int := (d.sec ino.sector).length

/-! ## inode_read_at / inode_write_at -/

/-- chunk_size computed by the loop of inode_read_at: min of the remaining
size, the bytes left before EOF and the bytes left in the sector (off_t
arithmetic is signed, so the chunk is an Int). -/
def read_chunk (d : Disk) (rt : Nat) (size offset : Nat) : Int :=
  min (size : Int) (min ((d.sec rt).length - (offset : Int))
    ((BLOCK_SECTOR_SIZE : Int) - ((offset % BLOCK_SECTOR_SIZE : Nat) : Int)))

/-- chunk_size computed by the loop of inode_write_at: as for reads but
with INODE_BYTE_MAXN in place of the current length. -/
def write_chunk (size offset : Nat) : Int :=
  min (size : Int) (min ((INODE_BYTE_MAXN : Int) - (offset : Int))
    ((BLOCK_SECTOR_SIZE : Int) - ((offset % BLOCK_SECTOR_SIZE : Nat) : Int)))

/-- The loop of inode_write_at: while the chunk is positive, fetch the data
block with allocate = true, memcpy the chunk into it at the in-sector
offset, mark it dirty and advance. -/
def write_loop (d : Disk) (rt : Nat) (buf : Nat → Nat) (size offset written : Nat) :
    Disk × Nat :=
  let c := write_chunk size offset
  if _hc : c ≤ 0 then (d, written)
  else
    let cn := c.toNat
    let r := get_data_block d rt offset true
    match r.2 with
    | none => (r.1, written)
    | some s =>
      let d2 := r.1.setSec s ((r.1.sec s).memcpyIn (offset % BLOCK_SECTOR_SIZE) buf written cn)
      write_loop d2 rt buf (size - cn) (offset + cn) (written + cn)
termination_by size
decreasing_by
  have hceq : c = write_chunk size offset := rfl
  unfold write_chunk at hceq
  omega

/-- The loop of inode_read_at: while the chunk is positive, fetch the data
block with allocate = false, copy the chunk out (zero-filling holes) and
advance.  The threaded disk is returned to witness that reading does not
change it. -/
def read_loop (d : Disk) (rt : Nat) (size offset : Nat) : Disk × List Nat :=
  let c := read_chunk d rt size offset
  if _hc : c ≤ 0 then (d, [])
  else
    let cn := c.toNat
    let r := get_data_block d rt offset false
    let chunkBytes :=
      match r.2 with
      | none => List.replicate cn 0
      | some s => (List.range cn).map fun j => (r.1.sec s).bytes (offset % BLOCK_SECTOR_SIZE + j)
    let rest := read_loop r.1 rt (size - cn) (offset + cn)
    (rest.1, chunkBytes ++ rest.2)
termination_by size
decreasing_by
  have hceq : c = read_chunk d rt size offset := rfl
  unfold read_chunk BLOCK_SECTOR_SIZE at hceq
  omega

/-- update_inode_length from inode.c: publish the new length in the header
sector if it exceeds the current one. -/
def update_inode_length (d : Disk) (ino : Inode) (length : Int) : Disk :=
  if length > (d.sec ino.sector).length then
    d.setSec ino.sector ((d.sec ino.sector).setLength length)
  else d

/-- inode_write_at from inode.c: refuse under deny-write, bump the
live-writers counter, run the chunk loop (allocating data blocks as
needed), publish the new length, and drop the live-writers counter. -/
def inode_write_at (d : Disk) (ino : Inode) (buf : Nat → Nat) (size offset : Nat) :
    Disk × Inode × Nat :=
  if ino.deny_write_cnt ≠ 0 then (d, ino, 0)
  else
    let ino1 := { ino with write_cnt := ino.write_cnt + 1 }
    let r := write_loop d ino.sector buf size offset 0
    let d2 := update_inode_length r.1 ino1 ((offset : Int) + (r.2 : Int))
    (d2, { ino1 with write_cnt := ino1.write_cnt - 1 }, r.2)

/-- inode_read_at from inode.c: run the read loop; the returned list holds
the bytes read (its length is the value bytes_read returned by the C
function). -/
def inode_read_at (d : Disk) (ino : Inode) (size offset : Nat) : Disk × List Nat :=
  read_loop d ino.sector size offset

/-! ## Block cache reader/writer state machine (filesys/cache.c)

The counters of one cache buffer are protected by its entry lock; each
transition below is one entry-lock critical section of cache_find,
cache_try_lock or cache_unlock (a cond_wait re-check loop completes only
when its exit condition holds, which becomes the transition guard). -/

/-- Per-buffer lock counters of struct cache_entry. -/
structure CacheCnt where
  read_cnt : Nat
  write_cnt : Nat
  read_wait_cnt : Nat
  write_wait_cnt : Nat
deriving DecidableEq

/-- One entry-lock critical section acting on a buffer's counters. -/
inductive CacheStep : CacheCnt → CacheCnt → Prop where
  /-- cache_find, shared branch: read_wait_cnt++ before possibly waiting
  on no_writers. -/
  | readRequest (s : CacheCnt) :
      CacheStep s { s with read_wait_cnt := s.read_wait_cnt + 1 }
  /-- cache_find, shared branch completing: the do-while re-check exits
  only once write_cnt = 0, then read_cnt++ and read_wait_cnt--. -/
  | readAcquire (s : CacheCnt) (hw : s.write_cnt = 0) (hq : 0 < s.read_wait_cnt) :
      CacheStep s { s with read_cnt := s.read_cnt + 1, read_wait_cnt := s.read_wait_cnt - 1 }
  /-- cache_find, exclusive branch: write_wait_cnt++ before possibly
  waiting on no_need. -/
  | writeRequest (s : CacheCnt) :
      CacheStep s { s with write_wait_cnt := s.write_wait_cnt + 1 }
  /-- cache_find, exclusive branch completing: the do-while re-check exits
  only once read_cnt = 0 and write_cnt = 0, then write_cnt++ and
  write_wait_cnt--. -/
  | writeAcquire (s : CacheCnt) (hr : s.read_cnt = 0) (hw : s.write_cnt = 0)
      (hq : 0 < s.write_wait_cnt) :
      CacheStep s { s with write_cnt := s.write_cnt + 1, write_wait_cnt := s.write_wait_cnt - 1 }
  /-- cache_try_lock binding a free entry in shared mode (under the ASSERT
  that both counters are zero): read_cnt = 1. -/
  | bindShared (s : CacheCnt) (hr : s.read_cnt = 0) (hw : s.write_cnt = 0) :
      CacheStep s { s with read_cnt := 1 }
  /-- cache_try_lock binding a free entry in exclusive mode: write_cnt = 1. -/
  | bindExclusive (s : CacheCnt) (hr : s.read_cnt = 0) (hw : s.write_cnt = 0) :
      CacheStep s { s with write_cnt := 1 }
  /-- cache_try_lock eviction seizing a buffer with no holder and no
  waiter: write_cnt = 1. -/
  | evictSeize (s : CacheCnt) (hr : s.read_cnt = 0) (hw : s.write_cnt = 0)
      (hrw : s.read_wait_cnt = 0) (hww : s.write_wait_cnt = 0) :
      CacheStep s { s with write_cnt := 1 }
  /-- cache_try_lock eviction finishing its write-back: write_cnt = 0. -/
  | evictRelease (s : CacheCnt) :
      CacheStep s { s with write_cnt := 0 }
  /-- cache_unlock by a reader: read_cnt--. -/
  | unlockRead (s : CacheCnt) (hr : 0 < s.read_cnt) :
      CacheStep s { s with read_cnt := s.read_cnt - 1 }
  /-- cache_unlock by a writer (taken only when read_cnt = 0): write_cnt--. -/
  | unlockWrite (s : CacheCnt) (hr : s.read_cnt = 0) (hw : 0 < s.write_cnt) :
      CacheStep s { s with write_cnt := s.write_cnt - 1 }

/-- Counter states reachable from the initial all-zero state set up by
cache_init. -/
inductive CacheReachable : CacheCnt → Prop where
  | init : CacheReachable ⟨0, 0, 0, 0⟩
  | step {s t : CacheCnt} : CacheReachable s → CacheStep s t → CacheReachable t

/-- Claim C5: for every cache buffer, in every state reachable by any
sequence of cache_lock (shared or exclusive), cache_try_lock and
cache_unlock operations, either write_cnt = 0, or read_cnt = 0 and
write_cnt = 1: at most one writer, and a writer excludes all readers. -/
theorem claim_c5_cache_rw_exclusion (s : CacheCnt) (h : CacheReachable s) :
    s.write_cnt = 0 ∨ (s.read_cnt = 0 ∧ s.write_cnt = 1) := by
  induction h with
  | init => left; rfl
  | step _ hstep ih => cases hstep <;> dsimp only <;> omega

/-- Witness for claim C5 at a concrete reachable state: a free buffer
bound exclusively by cache_try_lock. -/
theorem claim_c5_witness :
    (⟨0, 1, 0, 0⟩ : CacheCnt).write_cnt = 0 ∨
      ((⟨0, 1, 0, 0⟩ : CacheCnt).read_cnt = 0 ∧ (⟨0, 1, 0, 0⟩ : CacheCnt).write_cnt = 1) :=
  claim_c5_cache_rw_exclusion _
    (CacheReachable.step CacheReachable.init (CacheStep.bindExclusive ⟨0, 0, 0, 0⟩ rfl rfl))

/-! ## Inode deny-write coordination (inode.c)

The live-writers counter write_cnt and deny_write_cnt are protected by
deny_write_lock; each transition is one critical section of
inode_write_at, inode_deny_write or inode_allow_write. -/

structure InodeCnt where
  write_cnt : Nat
  deny_write_cnt : Nat
deriving DecidableEq

inductive InodeOp where
  | writeEnter
  | writeExit
  | denyWrite
  | allowWrite
deriving DecidableEq

/-- One deny_write_lock critical section. -/
inductive InodeStep : InodeOp → InodeCnt → InodeCnt → Prop where
  /-- inode_write_at entry, not refused: deny_write_cnt = 0, write_cnt++. -/
  | writeEnter (s : InodeCnt) (h : s.deny_write_cnt = 0) :
      InodeStep .writeEnter s { s with write_cnt := s.write_cnt + 1 }
  /-- inode_write_at exit: write_cnt--, signalling no_write at zero. -/
  | writeExit (s : InodeCnt) (h : 0 < s.write_cnt) :
      InodeStep .writeExit s { s with write_cnt := s.write_cnt - 1 }
  /-- inode_deny_write: the cond_wait loop on no_write exits only once
  write_cnt = 0, then deny_write_cnt++. -/
  | denyWrite (s : InodeCnt) (h : s.write_cnt = 0) :
      InodeStep .denyWrite s { s with deny_write_cnt := s.deny_write_cnt + 1 }
  /-- inode_allow_write: deny_write_cnt--. -/
  | allowWrite (s : InodeCnt) (h : 0 < s.deny_write_cnt) :
      InodeStep .allowWrite s { s with deny_write_cnt := s.deny_write_cnt - 1 }

/-- Claim C4: inode_deny_write blocks until the live-writers counter
write_cnt is zero and then increments deny_write_cnt; and for every inode
with deny_write_cnt > 0, inode_write_at returns 0 and leaves the disk (file
contents and length) and the inode unchanged. -/
theorem claim_c4_deny_write (s t : InodeCnt) (hstep : InodeStep .denyWrite s t)
    (d : Disk) (ino : Inode) (buf : Nat → Nat) (size offset : Nat)
    (hdeny : 0 < ino.deny_write_cnt) :
    (s.write_cnt = 0 ∧ t.deny_write_cnt = s.deny_write_cnt + 1 ∧ t.write_cnt = s.write_cnt) ∧
      inode_write_at d ino buf size offset = (d, ino, 0) := by
  constructor
  · cases hstep with
    | denyWrite s h => exact ⟨h, rfl, rfl⟩
  · unfold inode_write_at
    simp [Nat.pos_iff_ne_zero.mp hdeny]

def emptyDisk : Disk := { sec := fun _ => zeroSector, nextFree := 2 }

def deniedInode : Inode :=
  { sector := 1, open_cnt := 1, removed := false, deny_write_cnt := 1, write_cnt := 0 }

/-- Witness for claim C4 at concrete inputs: a denyWrite step from the
quiescent counter state, and a write against an inode with
deny_write_cnt = 1. -/
theorem claim_c4_witness :
    ((⟨0, 0⟩ : InodeCnt).write_cnt = 0 ∧
        (⟨0, 1⟩ : InodeCnt).deny_write_cnt = (⟨0, 0⟩ : InodeCnt).deny_write_cnt + 1 ∧
        (⟨0, 1⟩ : InodeCnt).write_cnt = (⟨0, 0⟩ : InodeCnt).write_cnt) ∧
      inode_write_at emptyDisk deniedInode (fun _ => 7) 4 0 = (emptyDisk, deniedInode, 0) :=
  claim_c4_deny_write ⟨0, 0⟩ ⟨0, 1⟩ (InodeStep.denyWrite ⟨0, 0⟩ rfl)
    emptyDisk deniedInode (fun _ => 7) 4 0 (by decide)

/-! ## Virtual-memory constants (threads/vaddr.h, vm/page.h) -/

def PGSIZE : Nat := 4096

def SECTOR_PER_PAGE : Nat := PGSIZE / BLOCK_SECTOR_SIZE

def PHYS_BASE : Nat := 0xc0000000

/-- ULIMIT_STACK from vm/page.h: 1 << 23 bytes = 8 MiB. -/
def ULIMIT_STACK : Nat := 8388608

def pg_round_down (a : Nat) : Nat := a - a % PGSIZE

def U32 : Nat := 4294967296

/-- The size_t computation (PHYS_BASE - pg_round_down(addr)) performed on
32-bit unsigned integers: a - b modulo 2^32, for a < 2^32. -/
def sizeTSub (a b : Nat) : Nat := (a + U32 - b % U32) % U32

/-! ## Swap manager (vm/swap.c, vm/swap.h) -/

/-- State of the swap manager: the bitmap (one bit per 8-sector slot, true
means in use), its size block_size(swap_device) / SECTOR_PER_PAGE, and the
swap device giving each sector its 512 bytes. -/
structure SwapSt where
  map : Nat → Bool
  mapSize : Nat
  dev : Nat → Nat → Nat

/-- bitmap_scan_and_flip(swap_map, 0, 1, 0) before the flip: index of the
first clear bit, scanning from pos with the given number of remaining
entries (the bitmap library is external to the sources; a linear scan for
the first clear bit is its spec). -/
def bitmap_scan_aux (m : Nat → Bool) (pos : Nat) : Nat → Option Nat
  | 0 => none
  | fuel + 1 => if m pos = false then some pos else bitmap_scan_aux m (pos + 1) fuel

def bitmap_scan (m : Nat → Bool) (size : Nat) : Option Nat :=
  bitmap_scan_aux m 0 size

/-- swap_dump from vm/swap.c: allocate the first clear bit of the bitmap
(none = PANIC, swap device full), write the frame's 8 sectors into the
slot's sector range, return the slot index. -/
def swap_dump (st : SwapSt) (frame : Nat → Nat) : Option (SwapSt × Nat) :=
  match bitmap_scan st.map st.mapSize with
  | none => none
  | some i =>
    some ({ st with
              map := fun j => if j = i then true else st.map j
              dev := fun s b =>
                if SECTOR_PER_PAGE * i ≤ s ∧ s < SECTOR_PER_PAGE * i + SECTOR_PER_PAGE then
                  frame (BLOCK_SECTOR_SIZE * (s - SECTOR_PER_PAGE * i) + b)
                else st.dev s b },
          i)

/-- swap_load from vm/swap.c: on a slot whose bitmap bit is set, clear the
bit and read the slot's 8 sectors back into the page at spte->addr
(returned as the page contents); on a clear slot, PANIC (none). -/
def swap_load (st : SwapSt) (swap_index : Nat) : Option (SwapSt × (Nat → Nat)) :=
  if st.map swap_index then
    some ({ st with map := fun j => if j = swap_index then false else st.map j },
          fun a => st.dev (swap_index * SECTOR_PER_PAGE + a / BLOCK_SECTOR_SIZE)
                     (a % BLOCK_SECTOR_SIZE))
  else none

/-! ## Supplemental page table (vm/page.h, vm/page.c) -/

inductive PageType where
  | elf
  | swap
  | mmap
deriving DecidableEq

/-- struct spt_entry from vm/page.h.  The file pointer is abstracted to a
numeric file identity. -/
structure SptEntry where
  type : PageType
  addr : Nat
  pinned : Bool
  writeable : Bool
  is_present : Bool
  fileId : Nat
  ofs : Nat
  read_bytes : Nat
  zero_bytes : Nat
  swap_index : Nat
deriving DecidableEq

/-- The per-process SPT, a hash keyed by page address, as a list;
hash_insert succeeds (returns NULL) iff no entry with the same address is
present. -/
def spt_lookup (spt : List SptEntry) (page : Nat) : Option SptEntry :=
  spt.find? fun e => e.addr == page

/-- spt_stack_growth from vm/page.c.  junk is the uninitialized content of
the malloc'd entry (the C code assigns only type, addr, pinned, writeable
and is_present); frameOk and installOk are the outcomes of frame_get and
install_page. -/
def spt_stack_growth (spt : List SptEntry) (addr : Nat) (junk : SptEntry)
    (frameOk installOk : Bool) : List SptEntry × Bool :=
  if ULIMIT_STACK < sizeTSub PHYS_BASE (pg_round_down addr) then (spt, false)
  else
    let spte : SptEntry :=
      { junk with type := .swap, addr := pg_round_down addr, pinned := true,
                  writeable := true, is_present := true }
    if frameOk then
      if installOk then
        if (spt_lookup spt spte.addr).isSome then (spt, false)
        else (spt ++ [spte], true)
      else (spt, false)
    else (spt, false)

/-- spt_load_file from vm/page.c (ELF and MMAP variants): obtain a frame,
read the file bytes, zero the rest, install the page; on success mark the
entry present.  The three Booleans are the outcomes of frame_get,
file_read_at and install_page; no step touches the pinned flag. -/
def spt_load_file (spte : SptEntry) (frameOk readOk installOk : Bool) : SptEntry × Bool :=
  if !frameOk then (spte, false)
  else if !readOk then (spte, false)
  else if !installOk then (spte, false)
  else ({ spte with is_present := true }, true)

/-- spt_load_swap from vm/page.c: obtain a frame, install the page, then
swap_load into it; on success mark the entry present. -/
def spt_load_swap (spte : SptEntry) (frameOk installOk : Bool) : SptEntry × Bool :=
  if frameOk then
    if installOk then ({ spte with is_present := true }, true)
    else (spte, false)
  else (spte, false)

/-- spt_load from vm/page.c: set pinned as the very first action, return
immediately if already present, otherwise dispatch on the variant. -/
def spt_load (spte : SptEntry) (frameOk readOk installOk : Bool) : SptEntry × Bool :=
  let s1 := { spte with pinned := true }
  if s1.is_present then (s1, true)
  else
    match s1.type with
    | .elf => spt_load_file s1 frameOk readOk installOk
    | .mmap => spt_load_file s1 frameOk readOk installOk
    | .swap => spt_load_swap s1 frameOk installOk

/-- unpin_addr from userprog/syscall.c: get_spte(addr) and, if an entry
exists for the page, set its pinned flag to false (the SPT holds at most
one entry per page). -/
def unpin_addr (spt : List SptEntry) (addr : Nat) : List SptEntry :=
  spt.map fun e => if e.addr = pg_round_down addr then { e with pinned := false } else e

/-! ## Frame table and second-chance eviction (vm/frame.c) -/

/-- One frame-table entry together with the hardware accessed and dirty
bits of the owner's PTE for the entry's user page. -/
structure FrameE where
  frame_addr : Nat
  accessed : Bool
  dirty : Bool
  spte : SptEntry
deriving DecidableEq

/-- State touched by frame_evict: the frame-table list plus the observable
effects on the rest of the system (swap slots handed out by swap_dump in
order, file write-backs, PTE clears, frames returned to the allocator). -/
structure EvictState where
  frames : List FrameE
  nextSlot : Nat
  dumps : List Nat
  fileWrites : List (Nat × Nat × Nat)
  cleared : List Nat
  freed : List Nat
deriving DecidableEq

/-- One pass of the frame_evict for-loop over the frame table: pinned
entries are skipped; an unpinned entry with the accessed bit set has the
bit cleared and the scan continues; the first unpinned entry with the
accessed bit clear is the victim.  Returns the processed prefix and, if a
victim was found, the victim and the remaining suffix. -/
def frame_scan : List FrameE → List FrameE × Option (FrameE × List FrameE)
  | [] => ([], none)
  | fe :: rest =>
    if fe.spte.pinned then
      let r := frame_scan rest
      (fe :: r.1, r.2)
    else if fe.accessed then
      let r := frame_scan rest
      ({ fe with accessed := false } :: r.1, r.2)
    else ([], some (fe, rest))

/-- frame_evict from vm/frame.c.  The fuel argument bounds the rounds of
the while(1) loop (none = fuel exhausted; the C code would keep
scanning).  On success, returns the post state, the victim entry as it was
when selected, and the victim's SPT entry after routing: the victim's PTE
is cleared; a dirty MMAP page is written back to its file; a SWAP page is
always dumped to swap; an ELF page is dropped if clean and promoted to the
SWAP variant and dumped if dirty; is_present is reset; the physical frame
is freed and a frame is re-requested from the allocator. -/
def frame_evict : Nat → EvictState → Option (EvictState × FrameE × SptEntry)
  | 0, _ => none
  | fuel + 1, st =>
    match frame_scan st.frames with
    | (done, none) => frame_evict fuel { st with frames := done }
    | (done, some (v, rest)) =>
      let routed : SptEntry × List Nat × List (Nat × Nat × Nat) × Nat :=
        match v.spte.type with
        | .mmap =>
          if v.dirty then
            (v.spte, st.dumps, st.fileWrites ++ [(v.spte.fileId, v.spte.ofs, v.spte.read_bytes)],
             st.nextSlot)
          else (v.spte, st.dumps, st.fileWrites, st.nextSlot)
        | .swap =>
          ({ v.spte with swap_index := st.nextSlot }, st.dumps ++ [v.frame_addr],
           st.fileWrites, st.nextSlot + 1)
        | .elf =>
          if v.dirty then
            ({ v.spte with type := .swap, swap_index := st.nextSlot },
             st.dumps ++ [v.frame_addr], st.fileWrites, st.nextSlot + 1)
          else (v.spte, st.dumps, st.fileWrites, st.nextSlot)
      some ({ st with
                frames := done ++ rest
                nextSlot := routed.2.2.2
                dumps := routed.2.1
                fileWrites := routed.2.2.1
                cleared := st.cleared ++ [v.spte.addr]
                freed := st.freed ++ [v.frame_addr] },
            v,
            { routed.1 with is_present := false })

/-! ## sys_mmap (userprog/syscall.c) -/

/-- struct file_node as far as sys_mmap consults it: the descriptor, the
identity of the open file and its length. -/
structure FileNode where
  file_descriptor : Int
  fileId : Nat
  fileLen : Nat
deriving DecidableEq

/-- get_fdstruct from userprog/syscall.c: linear search of the process's
file_nodes list. -/
def get_fdstruct (fds : List FileNode) (fd : Int) : Option FileNode :=
  fds.find? fun f => f.file_descriptor == fd

/-- Modelled from the spec: is_valid_user_addr is declared in
userprog/exception.h but its definition (userprog/exception.c) is not
among the sources; per the spec it accepts nonzero user virtual
addresses, i.e. addresses below PHYS_BASE. -/
def is_valid_user_addr (a : Nat) : Bool := decide (0 < a) && decide (a < PHYS_BASE)

/-- The linking loop of sys_mmap: one MMAP-variant SPT entry per page of
the file, read_bytes = min(remaining, PGSIZE), writable, not present; a
failing hash_insert aborts the loop (sys_mmap then returns -1). -/
def mmap_link_loop (spt : List SptEntry) (junk : SptEntry) (fileId ofs addr read_bytes : Nat) :
    List SptEntry × Bool :=
  if _h : read_bytes = 0 then (spt, true)
  else
    let prb := min read_bytes PGSIZE
    let e : SptEntry :=
      { junk with type := .mmap, addr := addr, pinned := false, writeable := true,
                  is_present := false, fileId := fileId, ofs := ofs, read_bytes := prb,
                  zero_bytes := PGSIZE - prb }
    if (spt_lookup spt addr).isSome then (spt, false)
    else mmap_link_loop (spt ++ [e]) junk fileId (ofs + prb) (addr + PGSIZE) (read_bytes - prb)
termination_by read_bytes
decreasing_by
  simp only [PGSIZE]
  omega

/-- sys_mmap from userprog/syscall.c, translated with its statement order
preserved: get_fdstruct, then file_length(fd_s->file) — a NULL fd_s is
dereferenced here, before the !fd_s test, so an unknown descriptor faults
in the kernel instead of reaching the -1 return (modelled as none) — then
the precondition test, then the linking loop, then return of the fresh
mapid.  Result: none for the kernel fault, otherwise some (new SPT, return
value, new mapid counter). -/
def sys_mmap (fds : List FileNode) (spt : List SptEntry) (junk : SptEntry)
    (fd : Int) (addr : Nat) (mapid : Int) : Option (List SptEntry × Int × Int) :=
  match get_fdstruct fds fd with
  | none => none
  | some fd_s =>
    let r := fd_s.fileLen
    if ¬ (is_valid_user_addr addr = true) ∨ addr % PGSIZE ≠ 0 ∨ r = 0 then
      some (spt, -1, mapid)
    else
      let res := mmap_link_loop spt junk fd_s.fileId 0 addr r
      if res.2 then some (res.1, mapid, mapid + 1)
      else some (res.1, -1, mapid)

/-! ## Bitmap scan lemmas and claim C7 -/

lemma bitmap_scan_aux_none (m : Nat → Bool) (fuel : Nat) :
    ∀ pos, (∀ j, pos ≤ j → j < pos + fuel → m j = true) →
      bitmap_scan_aux m pos fuel = none := by
  induction fuel with
  | zero => intro pos _; rfl
  | succ n ih =>
    intro pos h
    have hpos : m pos = true := h pos le_rfl (by omega)
    simp only [bitmap_scan_aux, hpos]
    exact ih (pos + 1) fun j h1 h2 => h j (by omega) (by omega)

lemma bitmap_scan_aux_some (m : Nat → Bool) (fuel : Nat) :
    ∀ pos i, pos ≤ i → i < pos + fuel → m i = false →
      (∀ j, pos ≤ j → j < i → m j = true) →
      bitmap_scan_aux m pos fuel = some i := by
  induction fuel with
  | zero => intro pos i h1 h2; omega
  | succ n ih =>
    intro pos i h1 h2 h3 h4
    by_cases hp : pos = i
    · subst hp
      simp [bitmap_scan_aux, h3]
    · have hpos : m pos = true := h4 pos le_rfl (by omega)
      simp only [bitmap_scan_aux, hpos]
      exact ih (pos + 1) i (by omega) (by omega) h3 fun j ha hb => h4 j (by omega) hb

/-- Claim C7: swap_dump allocates the first clear bit i of the swap bitmap
(panicking, modelled as none, if the bitmap is full), writes the frame's 8
sectors to the slot's sectors [8i, 8i+8) and returns i; swap_load on an
entry whose bitmap bit is set reads those 8 sectors back to the entry's
page and clears the bit; swap_load on a slot whose bit is clear panics. -/
theorem claim_c7_swap_slots (st : SwapSt) (frame : Nat → Nat) (idx : Nat) :
    ((∀ j, j < st.mapSize → st.map j = true) → swap_dump st frame = none) ∧
    (∀ i, i < st.mapSize → st.map i = false → (∀ j, j < i → st.map j = true) →
      ∃ st2, swap_dump st frame = some (st2, i) ∧ st2.map i = true ∧
        (∀ j, j ≠ i → st2.map j = st.map j) ∧
        (∀ k, k < SECTOR_PER_PAGE → ∀ b,
          st2.dev (SECTOR_PER_PAGE * i + k) b = frame (BLOCK_SECTOR_SIZE * k + b)) ∧
        (∀ s, s < SECTOR_PER_PAGE * i ∨ SECTOR_PER_PAGE * i + SECTOR_PER_PAGE ≤ s →
          st2.dev s = st.dev s)) ∧
    (st.map idx = true →
      ∃ st2 page, swap_load st idx = some (st2, page) ∧ st2.map idx = false ∧
        (∀ j, j ≠ idx → st2.map j = st.map j) ∧
        (∀ a, page a = st.dev (idx * SECTOR_PER_PAGE + a / BLOCK_SECTOR_SIZE)
                 (a % BLOCK_SECTOR_SIZE))) ∧
    (st.map idx = false → swap_load st idx = none) := by
  refine ⟨?_, ?_, ?_, ?_⟩
  · intro h
    unfold swap_dump bitmap_scan
    rw [bitmap_scan_aux_none st.map st.mapSize 0 (fun j _ h2 => h j (by omega))]
  · intro i hi hfree hbefore
    unfold swap_dump bitmap_scan
    rw [bitmap_scan_aux_some st.map st.mapSize 0 i (by omega) (by omega) hfree
        (fun j _ hb => hbefore j hb)]
    refine ⟨_, rfl, by simp, ?_, ?_, ?_⟩
    · intro j hj
      simp [hj]
    · intro k hk b
      have hcond : SECTOR_PER_PAGE * i ≤ SECTOR_PER_PAGE * i + k ∧
          SECTOR_PER_PAGE * i + k < SECTOR_PER_PAGE * i + SECTOR_PER_PAGE := by omega
      simp only [if_pos hcond]
      have : SECTOR_PER_PAGE * i + k - SECTOR_PER_PAGE * i = k := by omega
      rw [this]
    · intro s hs
      have hcond : ¬ (SECTOR_PER_PAGE * i ≤ s ∧ s < SECTOR_PER_PAGE * i + SECTOR_PER_PAGE) := by
        omega
      funext b
      simp only [if_neg hcond]
  · intro h
    unfold swap_load
    rw [if_pos h]
    exact ⟨_, _, rfl, by simp, fun j hj => by simp [hj], fun a => rfl⟩
  · intro h
    unfold swap_load
    rw [if_neg (by simp [h])]

def swapTestSt : SwapSt :=
  { map := fun j => decide (j = 0), mapSize := 2, dev := fun _ _ => 7 }

def swapTestFrame : Nat → Nat := fun a => a % 251

/-- Witness for claim C7 at concrete inputs: a two-slot bitmap with slot 0
in use, so a dump lands in slot 1 and a load of slot 0 succeeds. -/
theorem claim_c7_witness :
    (∃ st2, swap_dump swapTestSt swapTestFrame = some (st2, 1) ∧ st2.map 1 = true ∧
      (∀ j, j ≠ 1 → st2.map j = swapTestSt.map j) ∧
      (∀ k, k < SECTOR_PER_PAGE → ∀ b,
        st2.dev (SECTOR_PER_PAGE * 1 + k) b = swapTestFrame (BLOCK_SECTOR_SIZE * k + b)) ∧
      (∀ s, s < SECTOR_PER_PAGE * 1 ∨ SECTOR_PER_PAGE * 1 + SECTOR_PER_PAGE ≤ s →
        st2.dev s = swapTestSt.dev s)) ∧
    (∃ st2 page, swap_load swapTestSt 0 = some (st2, page) ∧ st2.map 0 = false ∧
      (∀ j, j ≠ 0 → st2.map j = swapTestSt.map j) ∧
      (∀ a, page a = swapTestSt.dev (0 * SECTOR_PER_PAGE + a / BLOCK_SECTOR_SIZE)
               (a % BLOCK_SECTOR_SIZE))) :=
  ⟨(claim_c7_swap_slots swapTestSt swapTestFrame 0).2.1 1 (by decide) (by decide)
      (by decide),
   (claim_c7_swap_slots swapTestSt swapTestFrame 0).2.2.1 (by decide)⟩

/-! ## Claim C8: spt_stack_growth -/

lemma sizeTSub_eq (a b : Nat) (hba : b ≤ a) (ha : a < U32) : sizeTSub a b = a - b := by
  unfold sizeTSub U32 at *
  omega

def junkEntry : SptEntry :=
  { type := .elf, addr := 0, pinned := false, writeable := false, is_present := false,
    fileId := 0, ofs := 0, read_bytes := 0, zero_bytes := 0, swap_index := 0 }

def stackPageEntry : SptEntry :=
  { type := .swap, addr := 0xbffff000, pinned := false, writeable := true,
    is_present := false, fileId := 0, ofs := 0, read_bytes := 0, zero_bytes := 0,
    swap_index := 0 }

/-- Counterexample to claim C8 as stated: the address 0xbffff123 lies well
inside the stack-growth window (its page is 4 KiB below PHYS_BASE), frame
allocation and page-table installation succeed, yet spt_stack_growth
returns false and creates no entry, because the SPT already holds an entry
for that page and hash_insert fails. -/
theorem claim_c8_counterexample :
    sizeTSub PHYS_BASE (pg_round_down 0xbffff123) ≤ ULIMIT_STACK ∧
    spt_stack_growth [stackPageEntry] 0xbffff123 junkEntry true true =
      ([stackPageEntry], false) := by
  constructor
  · decide
  · decide

/-- Claim C8, amended: spt_stack_growth fails (returning false and leaving
the SPT unchanged) for every address whose page lies more than 8 MiB below
PHYS_BASE; for a user address within that window whose page has no
existing SPT entry, it appends a new present, pinned, writable
SWAP-variant entry and returns true, provided frame allocation and
page-table installation succeed. -/
theorem claim_c8_stack_growth (spt : List SptEntry) (addr : Nat) (junk : SptEntry)
    (frameOk installOk : Bool) :
    (pg_round_down addr + ULIMIT_STACK < PHYS_BASE →
      spt_stack_growth spt addr junk frameOk installOk = (spt, false)) ∧
    (addr < PHYS_BASE → PHYS_BASE ≤ pg_round_down addr + ULIMIT_STACK →
      frameOk = true → installOk = true →
      spt_lookup spt (pg_round_down addr) = none →
      ∃ e, spt_stack_growth spt addr junk frameOk installOk = (spt ++ [e], true) ∧
        e.type = .swap ∧ e.addr = pg_round_down addr ∧ e.pinned = true ∧
        e.writeable = true ∧ e.is_present = true) := by
  constructor
  · intro h
    have hlt : pg_round_down addr < PHYS_BASE := by
      have : 0 < ULIMIT_STACK := by decide
      omega
    have hsub : sizeTSub PHYS_BASE (pg_round_down addr) = PHYS_BASE - pg_round_down addr :=
      sizeTSub_eq _ _ (le_of_lt hlt) (by decide)
    unfold spt_stack_growth
    rw [if_pos (by rw [hsub]; omega)]
  · intro h1 h2 hf hi hnone
    subst hf; subst hi
    have hle : pg_round_down addr ≤ addr := Nat.sub_le _ _
    have hsub : sizeTSub PHYS_BASE (pg_round_down addr) = PHYS_BASE - pg_round_down addr :=
      sizeTSub_eq _ _ (by omega) (by decide)
    unfold spt_stack_growth
    rw [if_neg (by rw [hsub]; omega)]
    simp only [hnone, Option.isSome_none, Bool.false_eq_true, if_false, if_true]
    exact ⟨_, rfl, rfl, rfl, rfl, rfl, rfl⟩

/-- Witness for the amended claim C8: an out-of-window address fails, and
an in-window address with an empty SPT grows the stack. -/
theorem claim_c8_witness :
    spt_stack_growth [] 0x1000 junkEntry true true = ([], false) ∧
    (∃ e, spt_stack_growth [] 0xbfffff00 junkEntry true true = ([] ++ [e], true) ∧
      e.type = .swap ∧ e.addr = pg_round_down 0xbfffff00 ∧ e.pinned = true ∧
      e.writeable = true ∧ e.is_present = true) :=
  ⟨(claim_c8_stack_growth [] 0x1000 junkEntry true true).1 (by decide),
   (claim_c8_stack_growth [] 0xbfffff00 junkEntry true true).2 (by decide) (by decide)
     rfl rfl rfl⟩

/-! ## Claim C9: sys_mmap -/

def mmapTestFd : FileNode := { file_descriptor := 3, fileId := 9, fileLen := 100 }

def mmapLinkedEntry : SptEntry :=
  { junkEntry with type := .mmap, addr := 0x10000000, pinned := false, writeable := true,
                   is_present := false, fileId := 9, ofs := 0, read_bytes := 100,
                   zero_bytes := PGSIZE - 100 }

/-- Claim C9 concerns sys_mmap's failure behaviour.  The code violates the
claim for an unknown descriptor: sys_mmap reads fd_s->file before testing
fd_s for NULL, so a process calling mmap with a descriptor it never opened
dereferences a null pointer in the kernel (modelled as none) instead of
receiving -1.  The conjuncts evaluate the code at such a failing input
(descriptor 5, empty descriptor table), and contrast it with the intended
-1 paths, which are reachable only when the descriptor is open: a
misaligned address and a zero-length file both return -1 with no SPT entry
linked, and a valid call links the file's pages and returns the fresh
mapid. -/
theorem claim_c9_mmap_unknown_fd_faults :
    sys_mmap [] [] junkEntry 5 0x10000000 7 = none ∧
    sys_mmap [mmapTestFd] [] junkEntry 3 0x10000123 7 = some ([], -1, 7) ∧
    sys_mmap [{ mmapTestFd with fileLen := 0 }] [] junkEntry 3 0x10000000 7 =
      some ([], -1, 7) ∧
    (∃ e, sys_mmap [mmapTestFd] [] junkEntry 3 0x10000000 7 = some ([e], 7, 8) ∧
      e.type = .mmap ∧ e.addr = 0x10000000 ∧ e.read_bytes = 100 ∧ e.is_present = false) := by
  refine ⟨rfl, rfl, rfl, ⟨mmapLinkedEntry, ?_, rfl, rfl, rfl, rfl⟩⟩
  have hloop : mmap_link_loop [] junkEntry 9 0 0x10000000 100 = ([mmapLinkedEntry], true) := by
    rw [mmap_link_loop]
    norm_num [spt_lookup, PGSIZE]
    rw [mmap_link_loop]
    norm_num [mmapLinkedEntry, PGSIZE]
  simp [sys_mmap, get_fdstruct, mmapTestFd, is_valid_user_addr, PHYS_BASE, PGSIZE, hloop]

/-! ## Frame scan lemmas -/

/-- Effect of one eviction pass on an entry it does not select: pinned
entries are untouched, unpinned ones get their accessed bit cleared. -/
def clearAcc (fe : FrameE) : FrameE :=
  if fe.spte.pinned then fe else { fe with accessed := false }

lemma frame_scan_prefix (l : List FrameE) :
    ∀ fe ∈ (frame_scan l).1, ∃ fe0 ∈ l, fe.spte = fe0.spte ∧ fe.frame_addr = fe0.frame_addr ∧
      fe.dirty = fe0.dirty := by
  induction l with
  | nil => intro fe h; simp [frame_scan] at h
  | cons a l ih =>
    intro fe hfe
    by_cases hp : a.spte.pinned
    · simp only [frame_scan, if_pos hp, List.mem_cons] at hfe
      rcases hfe with heq | hfe
      · exact ⟨a, List.mem_cons_self a l, by rw [heq], by rw [heq], by rw [heq]⟩
      · obtain ⟨fe0, h0, he⟩ := ih fe hfe
        exact ⟨fe0, List.mem_cons_of_mem a h0, he⟩
    · by_cases ha : a.accessed
      · simp only [frame_scan, if_neg hp, if_pos ha, List.mem_cons] at hfe
        rcases hfe with heq | hfe
        · exact ⟨a, List.mem_cons_self a l, by rw [heq], by rw [heq], by rw [heq]⟩
        · obtain ⟨fe0, h0, he⟩ := ih fe hfe
          exact ⟨fe0, List.mem_cons_of_mem a h0, he⟩
      · simp [frame_scan, if_neg hp, if_neg ha] at hfe

lemma frame_scan_victim (l : List FrameE) (v : FrameE) (rest : List FrameE)
    (h : (frame_scan l).2 = some (v, rest)) :
    v.spte.pinned = false ∧ v.accessed = false ∧ v ∈ l ∧ ∀ fe ∈ rest, fe ∈ l := by
  induction l with
  | nil => simp [frame_scan] at h
  | cons a l ih =>
    by_cases hp : a.spte.pinned
    · simp only [frame_scan, if_pos hp] at h
      obtain ⟨h1, h2, h3, h4⟩ := ih h
      exact ⟨h1, h2, List.mem_cons_of_mem a h3, fun fe hfe =>
        List.mem_cons_of_mem a (h4 fe hfe)⟩
    · by_cases ha : a.accessed
      · simp only [frame_scan, if_neg hp, if_pos ha] at h
        obtain ⟨h1, h2, h3, h4⟩ := ih h
        exact ⟨h1, h2, List.mem_cons_of_mem a h3, fun fe hfe =>
          List.mem_cons_of_mem a (h4 fe hfe)⟩
      · simp only [frame_scan, if_neg hp, if_neg ha, Option.some.injEq, Prod.mk.injEq] at h
        obtain ⟨rfl, rfl⟩ := h
        exact ⟨by simp [hp], by simp [ha], List.mem_cons_self a l, fun fe hfe =>
          List.mem_cons_of_mem a hfe⟩

lemma frame_scan_none_eq (l : List FrameE)
    (h : ∀ fe ∈ l, fe.spte.pinned = true ∨ fe.accessed = true) :
    frame_scan l = (l.map clearAcc, none) := by
  induction l with
  | nil => rfl
  | cons a l ih =>
    have ha := h a (List.mem_cons_self a l)
    have htl := ih fun fe hfe => h fe (List.mem_cons_of_mem a hfe)
    by_cases hp : a.spte.pinned
    · simp [frame_scan, if_pos hp, htl, clearAcc, List.map_cons]
    · have hacc : a.accessed = true := by
        rcases ha with h1 | h1
        · exact absurd h1 hp
        · exact h1
      simp [frame_scan, if_neg hp, hacc, htl, clearAcc, List.map_cons]

lemma find_none_all (l : List FrameE)
    (h : l.find? (fun fe => !fe.spte.pinned && !fe.accessed) = none) :
    ∀ fe ∈ l, fe.spte.pinned = true ∨ fe.accessed = true := by
  intro fe hfe
  have := List.find?_eq_none.mp h fe hfe
  cases hp : fe.spte.pinned <;> cases ha : fe.accessed <;> simp_all

lemma find_unpinned_clear (l : List FrameE) :
    ∀ u, l.find? (fun fe => !fe.spte.pinned) = some u →
      u.spte.pinned = false ∧
        (l.map clearAcc).find? (fun fe => !fe.spte.pinned && !fe.accessed) =
          some { u with accessed := false } := by
  induction l with
  | nil => intro u h; simp at h
  | cons a l ih =>
    intro u h
    by_cases hp : a.spte.pinned
    · have h1 : (a :: l).find? (fun fe => !fe.spte.pinned) = l.find? (fun fe => !fe.spte.pinned) := by
        simp [List.find?_cons, hp]
      rw [h1] at h
      obtain ⟨hu, hfind⟩ := ih u h
      refine ⟨hu, ?_⟩
      have hca : clearAcc a = a := by simp [clearAcc, hp]
      simp [List.map_cons, hca, List.find?_cons, hp, hfind]
    · have h1 : (a :: l).find? (fun fe => !fe.spte.pinned) = some a := by
        simp [List.find?_cons, hp]
      rw [h1] at h
      have hau : a = u := Option.some.inj h
      subst hau
      have hca : clearAcc a = { a with accessed := false } := by simp [clearAcc, hp]
      refine ⟨by simp [hp], ?_⟩
      simp [List.map_cons, hca, List.find?_cons, hp]

lemma frame_scan_find (l : List FrameE) :
    ∀ u, l.find? (fun fe => !fe.spte.pinned && !fe.accessed) = some u →
      ∃ done rest, frame_scan l = (done, some (u, rest)) := by
  induction l with
  | nil => intro u h; simp at h
  | cons a l ih =>
    intro u h
    by_cases hp : a.spte.pinned
    · have h1 : (a :: l).find? (fun fe => !fe.spte.pinned && !fe.accessed) =
          l.find? (fun fe => !fe.spte.pinned && !fe.accessed) := by
        simp [List.find?_cons, hp]
      rw [h1] at h
      obtain ⟨done, rest, hscan⟩ := ih u h
      exact ⟨a :: done, rest, by simp [frame_scan, if_pos hp, hscan]⟩
    · by_cases ha : a.accessed
      · have h1 : (a :: l).find? (fun fe => !fe.spte.pinned && !fe.accessed) =
            l.find? (fun fe => !fe.spte.pinned && !fe.accessed) := by
          simp [List.find?_cons, hp, ha]
        rw [h1] at h
        obtain ⟨done, rest, hscan⟩ := ih u h
        exact ⟨{ a with accessed := false } :: done, rest, by
          simp [frame_scan, if_neg hp, ha, hscan]⟩
      · have h1 : (a :: l).find? (fun fe => !fe.spte.pinned && !fe.accessed) = some a := by
          simp [List.find?_cons, hp, ha]
        rw [h1] at h
        have hau : a = u := Option.some.inj h
        subst hau
        exact ⟨[], l, by simp [frame_scan, if_neg hp, if_neg ha]⟩

/-- Effects of a successful eviction round: the victim is removed, its PTE
cleared and frame freed, and its SPT entry is routed by variant. -/
lemma frame_evict_effects (st : EvictState) (done rest : List FrameE) (v : FrameE) (fuel : Nat)
    (hscan : frame_scan st.frames = (done, some (v, rest))) :
    ∃ st2 sA, frame_evict (fuel + 1) st = some (st2, v, sA) ∧
      st2.frames = done ++ rest ∧
      sA.is_present = false ∧ sA.pinned = v.spte.pinned ∧
      st2.cleared = st.cleared ++ [v.spte.addr] ∧
      st2.freed = st.freed ++ [v.frame_addr] ∧
      (v.spte.type = .mmap →
        sA = { v.spte with is_present := false } ∧ st2.dumps = st.dumps ∧
          st2.fileWrites =
            (if v.dirty then
              st.fileWrites ++ [(v.spte.fileId, v.spte.ofs, v.spte.read_bytes)]
            else st.fileWrites)) ∧
      (v.spte.type = .swap →
        sA = { v.spte with swap_index := st.nextSlot, is_present := false } ∧
          st2.dumps = st.dumps ++ [v.frame_addr] ∧ st2.fileWrites = st.fileWrites) ∧
      (v.spte.type = .elf →
        st2.fileWrites = st.fileWrites ∧
          (v.dirty = true →
            sA = { v.spte with type := .swap, swap_index := st.nextSlot, is_present := false } ∧
              st2.dumps = st.dumps ++ [v.frame_addr]) ∧
          (v.dirty = false →
            sA = { v.spte with is_present := false } ∧ st2.dumps = st.dumps)) := by
  refine ⟨_, _, by rw [frame_evict, hscan], rfl, ?_⟩
  rcases hT : v.spte.type <;> rcases hD : v.dirty <;>
    simp [hT, hD]

lemma frame_evict_zero (st : EvictState) : frame_evict 0 st = none := rfl

/-- Any successful frame_evict selects an unpinned victim, does not change
the pinned flag while routing it, and preserves the SPT entries of the
surviving frame-table entries. -/
lemma frame_evict_pinned (fuel : Nat) :
    ∀ st st2 v sA, frame_evict fuel st = some (st2, v, sA) →
      v.spte.pinned = false ∧ sA.pinned = v.spte.pinned ∧
      ∀ fe ∈ st2.frames, ∃ fe0 ∈ st.frames, fe.spte = fe0.spte := by
  induction fuel with
  | zero => intro st st2 v sA h; exact absurd h (by simp [frame_evict])
  | succ n ih =>
    intro st st2 v sA h
    rcases hscan : frame_scan st.frames with ⟨done, r⟩
    cases r with
    | none =>
      rw [frame_evict, hscan] at h
      obtain ⟨h1, h2, h3⟩ := ih _ _ _ _ h
      refine ⟨h1, h2, fun fe hfe => ?_⟩
      obtain ⟨fe0, h0, he⟩ := h3 fe hfe
      obtain ⟨fe1, h1', he1, _, _⟩ := frame_scan_prefix st.frames fe0 (by rw [hscan]; exact h0)
      exact ⟨fe1, h1', he.trans he1⟩
    | some vr =>
      obtain ⟨v0, rest⟩ := vr
      obtain ⟨st2', sA', heq, hframes, _, hpin, _, _, _, _, _⟩ :=
        frame_evict_effects st done rest v0 n hscan
      rw [heq] at h
      simp only [Option.some.injEq, Prod.mk.injEq] at h
      obtain ⟨h1, h2, h3⟩ := h
      subst h1
      subst h2
      subst h3
      obtain ⟨hv1, _, _, hrest⟩ := frame_scan_victim st.frames _ rest (by rw [hscan])
      refine ⟨hv1, hpin, fun fe hfe => ?_⟩
      rw [hframes] at hfe
      rcases List.mem_append.mp hfe with hfe | hfe
      · obtain ⟨fe0, h0, he, _, _⟩ := frame_scan_prefix st.frames fe (by rw [hscan]; exact hfe)
        exact ⟨fe0, h0, he⟩
      · exact ⟨fe, hrest fe hfe, rfl⟩

/-- Claim C6: frame_evict scans the frame table at most twice round with a
second-chance policy.  Given at least one unpinned frame entry, two rounds
suffice: the victim is the first unpinned entry whose hardware accessed bit
is clear, if any, and otherwise (after the first round clears the accessed
bits of all unpinned entries) the first unpinned entry; unpinned entries
scanned before the victim have their accessed bit cleared and the scan
continues past them.  The victim's PTE is cleared; a dirty MMAP victim is
written back to its file (a clean one is dropped); a SWAP victim is always
dumped to the next swap slot; an ELF victim is dropped if clean, and
promoted to the SWAP variant and dumped if dirty; is_present becomes
false; and the physical frame is freed back to the allocator. -/
theorem claim_c6_frame_evict (st : EvictState)
    (hex : ∃ fe ∈ st.frames, fe.spte.pinned = false) :
    ∃ st2 v sA, frame_evict 2 st = some (st2, v, sA) ∧
      v.spte.pinned = false ∧ v.accessed = false ∧
      ((∃ u, st.frames.find? (fun fe => !fe.spte.pinned && !fe.accessed) = some u ∧ v = u) ∨
        (st.frames.find? (fun fe => !fe.spte.pinned && !fe.accessed) = none ∧
          ∃ u, st.frames.find? (fun fe => !fe.spte.pinned) = some u ∧
            v = { u with accessed := false })) ∧
      sA.is_present = false ∧ sA.pinned = v.spte.pinned ∧
      st2.cleared = st.cleared ++ [v.spte.addr] ∧
      st2.freed = st.freed ++ [v.frame_addr] ∧
      (v.spte.type = .mmap →
        sA = { v.spte with is_present := false } ∧ st2.dumps = st.dumps ∧
          st2.fileWrites =
            (if v.dirty then
              st.fileWrites ++ [(v.spte.fileId, v.spte.ofs, v.spte.read_bytes)]
            else st.fileWrites)) ∧
      (v.spte.type = .swap →
        sA = { v.spte with swap_index := st.nextSlot, is_present := false } ∧
          st2.dumps = st.dumps ++ [v.frame_addr] ∧ st2.fileWrites = st.fileWrites) ∧
      (v.spte.type = .elf →
        st2.fileWrites = st.fileWrites ∧
          (v.dirty = true →
            sA = { v.spte with type := .swap, swap_index := st.nextSlot, is_present := false } ∧
              st2.dumps = st.dumps ++ [v.frame_addr]) ∧
          (v.dirty = false →
            sA = { v.spte with is_present := false } ∧ st2.dumps = st.dumps)) := by
  rcases hfind : st.frames.find? (fun fe => !fe.spte.pinned && !fe.accessed) with _ | u
  · -- first round finds no victim: all unpinned entries were accessed
    have hall := find_none_all st.frames hfind
    have hscan1 := frame_scan_none_eq st.frames hall
    obtain ⟨fe, hfe, hfep⟩ := hex
    have hfsome : (st.frames.find? (fun fe => !fe.spte.pinned)).isSome := by
      rw [List.find?_isSome]
      exact ⟨fe, hfe, by simp [hfep]⟩
    obtain ⟨u, hu⟩ := Option.isSome_iff_exists.mp hfsome
    obtain ⟨hupin, hfind2⟩ := find_unpinned_clear st.frames u hu
    obtain ⟨done2, rest2, hscan2⟩ := frame_scan_find (st.frames.map clearAcc) _ hfind2
    have hst' : frame_evict 2 st = frame_evict 1 { st with frames := st.frames.map clearAcc } := by
      rw [show (2 : Nat) = 1 + 1 from rfl, frame_evict, hscan1]
    obtain ⟨st2, sA, heq, hframes, hpres, hpin, hclear, hfreed, hmmap, hswap, helf⟩ :=
      frame_evict_effects { st with frames := st.frames.map clearAcc } done2 rest2
        { u with accessed := false } 0 hscan2
    refine ⟨st2, { u with accessed := false }, sA, hst'.trans heq, by simp [hupin], rfl,
      Or.inr ⟨hfind, u, hu, rfl⟩, hpres, hpin, hclear, hfreed, hmmap, hswap, helf⟩
  · -- first round finds the victim
    obtain ⟨done, rest, hscan⟩ := frame_scan_find st.frames u hfind
    obtain ⟨hupin, huacc, _, _⟩ := frame_scan_victim st.frames u rest (by rw [hscan])
    obtain ⟨st2, sA, heq, hframes, hpres, hpin, hclear, hfreed, hmmap, hswap, helf⟩ :=
      frame_evict_effects st done rest u 1 hscan
    exact ⟨st2, u, sA, heq, hupin, huacc, Or.inl ⟨u, hfind, rfl⟩, hpres, hpin, hclear,
      hfreed, hmmap, hswap, helf⟩

def evictTestSpte : SptEntry :=
  { type := .swap, addr := 0x800000, pinned := false, writeable := true, is_present := true,
    fileId := 0, ofs := 0, read_bytes := 0, zero_bytes := 0, swap_index := 0 }

def evictTestFrame : FrameE :=
  { frame_addr := 0x123000, accessed := false, dirty := false, spte := evictTestSpte }

def evictTestState : EvictState :=
  { frames := [evictTestFrame], nextSlot := 4, dumps := [], fileWrites := [], cleared := [],
    freed := [] }

/-- Witness for claim C6: a one-entry frame table whose only entry is
unpinned and unaccessed. -/
theorem claim_c6_witness :
    ∃ st2 v sA, frame_evict 2 evictTestState = some (st2, v, sA) ∧
      v.spte.pinned = false ∧ v.accessed = false ∧
      ((∃ u, evictTestState.frames.find? (fun fe => !fe.spte.pinned && !fe.accessed) =
          some u ∧ v = u) ∨
        (evictTestState.frames.find? (fun fe => !fe.spte.pinned && !fe.accessed) = none ∧
          ∃ u, evictTestState.frames.find? (fun fe => !fe.spte.pinned) = some u ∧
            v = { u with accessed := false })) ∧
      sA.is_present = false ∧ sA.pinned = v.spte.pinned ∧
      st2.cleared = evictTestState.cleared ++ [v.spte.addr] ∧
      st2.freed = evictTestState.freed ++ [v.frame_addr] ∧
      (v.spte.type = .mmap →
        sA = { v.spte with is_present := false } ∧ st2.dumps = evictTestState.dumps ∧
          st2.fileWrites =
            (if v.dirty then
              evictTestState.fileWrites ++ [(v.spte.fileId, v.spte.ofs, v.spte.read_bytes)]
            else evictTestState.fileWrites)) ∧
      (v.spte.type = .swap →
        sA = { v.spte with swap_index := evictTestState.nextSlot, is_present := false } ∧
          st2.dumps = evictTestState.dumps ++ [v.frame_addr] ∧
          st2.fileWrites = evictTestState.fileWrites) ∧
      (v.spte.type = .elf →
        st2.fileWrites = evictTestState.fileWrites ∧
          (v.dirty = true →
            sA = { v.spte with type := .swap, swap_index := evictTestState.nextSlot, is_present := false } ∧
              st2.dumps = evictTestState.dumps ++ [v.frame_addr]) ∧
          (v.dirty = false →
            sA = { v.spte with is_present := false } ∧ st2.dumps = evictTestState.dumps)) :=
  claim_c6_frame_evict evictTestState ⟨evictTestFrame, by simp [evictTestState], by decide⟩

/-- Claim C10: every call to spt_load sets pinned to true as its first
action — including when the entry is already resident and when the load
subsequently fails — and the paging layer itself never resets it:
frame_evict selects only unpinned victims, leaves the victim's pinned flag
unchanged while routing it, and preserves the SPT entries of the surviving
frames; pinned becomes false again only through the syscall-exit unpin
path (unpin_addr), which clears exactly the entry of the given page and
leaves every other entry untouched. -/
theorem claim_c10_pin_discipline (spte : SptEntry) (fOk rOk iOk : Bool)
    (fuel : Nat) (st st2 : EvictState) (v : FrameE) (sA : SptEntry)
    (spt : List SptEntry) (addr : Nat) :
    (spt_load spte fOk rOk iOk).1.pinned = true ∧
    (frame_evict fuel st = some (st2, v, sA) →
      v.spte.pinned = false ∧ sA.pinned = v.spte.pinned ∧
      ∀ fe ∈ st2.frames, ∃ fe0 ∈ st.frames, fe.spte = fe0.spte) ∧
    (∀ e ∈ unpin_addr spt addr, e.addr = pg_round_down addr → e.pinned = false) ∧
    (∀ e ∈ unpin_addr spt addr, e.addr ≠ pg_round_down addr → e ∈ spt) := by
  refine ⟨?_, fun h => frame_evict_pinned fuel st st2 v sA h, ?_, ?_⟩
  · cases hP : spte.is_present <;> cases hT : spte.type <;>
      cases fOk <;> cases rOk <;> cases iOk <;>
      simp [spt_load, spt_load_file, spt_load_swap, hP, hT]
  · intro e he heq
    simp only [unpin_addr, List.mem_map] at he
    obtain ⟨e0, _, he0⟩ := he
    by_cases h0 : e0.addr = pg_round_down addr
    · rw [← he0]
      simp [h0]
    · rw [← he0] at heq
      simp [h0] at heq
  · intro e he hne
    simp only [unpin_addr, List.mem_map] at he
    obtain ⟨e0, hmem, he0⟩ := he
    by_cases h0 : e0.addr = pg_round_down addr
    · have : e.addr = pg_round_down addr := by
        rw [← he0]
        simp [h0]
      exact absurd this hne
    · rw [← he0]
      simpa [h0] using hmem

def evictTestPost : EvictState :=
  { frames := [], nextSlot := 5, dumps := [0x123000], fileWrites := [], cleared := [0x800000],
    freed := [0x123000] }

def evictTestSA : SptEntry := { evictTestSpte with swap_index := 4, is_present := false }

/-- Witness for claim C10 at concrete inputs: a failing load of a
non-resident ELF entry still pins it; the concrete eviction of the witness
frame table; unpinning a one-entry SPT. -/
theorem claim_c10_witness :
    (spt_load junkEntry false false false).1.pinned = true ∧
    (evictTestFrame.spte.pinned = false ∧
      evictTestSA.pinned = evictTestFrame.spte.pinned ∧
      ∀ fe ∈ evictTestPost.frames, ∃ fe0 ∈ evictTestState.frames, fe.spte = fe0.spte) ∧
    (∀ e ∈ unpin_addr [stackPageEntry] 0xbffff123,
      e.addr = pg_round_down 0xbffff123 → e.pinned = false) ∧
    (∀ e ∈ unpin_addr [stackPageEntry] 0xbffff123,
      e.addr ≠ pg_round_down 0xbffff123 → e ∈ [stackPageEntry]) := by
  have h := claim_c10_pin_discipline junkEntry false false false 2 evictTestState
    evictTestPost evictTestFrame evictTestSA [stackPageEntry] 0xbffff123
  exact ⟨h.1, h.2.1 (by decide), h.2.2.1, h.2.2.2⟩

/-! ## Claim C3: reads at holes -/

lemma get_data_block_walk_noalloc (path : List Nat) : ∀ d cur,
    (get_data_block_walk d cur path false).1 = d := by
  induction path with
  | nil => intro d cur; rfl
  | cons o rest ih =>
    intro d cur
    by_cases hp : ptrAt d cur o ≠ 0
    · cases rest with
      | nil => simp [get_data_block_walk, hp]
      | cons a b =>
        simp only [get_data_block_walk, if_pos hp]
        exact ih d _
    · simp [get_data_block_walk, hp]

lemma get_data_block_noalloc (d : Disk) (rt offset : Nat) :
    (get_data_block d rt offset false).1 = d :=
  get_data_block_walk_noalloc _ d rt

lemma read_loop_fst (size : Nat) : ∀ d rt offset, (read_loop d rt size offset).1 = d := by
  induction size using Nat.strong_induction_on with
  | _ size ih =>
    intro d rt offset
    rw [read_loop]
    by_cases hc : read_chunk d rt size offset ≤ 0
    · rw [dif_pos hc]
    · rw [dif_neg hc]
      simp only [get_data_block_noalloc]
      have hlt : size - (read_chunk d rt size offset).toNat < size := by
        unfold read_chunk BLOCK_SECTOR_SIZE at hc ⊢
        omega
      exact ih _ hlt d rt _

lemma read_loop_length (size : Nat) : ∀ d rt offset,
    (read_loop d rt size offset).2.length =
      min size (((d.sec rt).length - (offset : Int)).toNat) := by
  induction size using Nat.strong_induction_on with
  | _ size ih =>
    intro d rt offset
    rw [read_loop]
    by_cases hc : read_chunk d rt size offset ≤ 0
    · rw [dif_pos hc]
      simp only [List.length_nil]
      unfold read_chunk BLOCK_SECTOR_SIZE at hc
      omega
    · rw [dif_neg hc]
      have hlt : size - (read_chunk d rt size offset).toNat < size := by
        unfold read_chunk BLOCK_SECTOR_SIZE at hc ⊢
        omega
      have hrec := ih _ hlt d rt (offset + (read_chunk d rt size offset).toNat)
      rcases hgd : (get_data_block d rt offset false).2 with _ | s <;>
        · simp only [hgd, get_data_block_noalloc, List.length_append, List.length_replicate,
            List.length_map, List.length_range, hrec]
          unfold read_chunk BLOCK_SECTOR_SIZE at hc ⊢
          omega

/-- Claim C3: for an inode and an offset off before the file length whose
containing data sector is a hole (the read-path walk reaches a zero
pointer and returns no cache entry), inode_read_at leaves the disk (the
inode's sector tree, and the free map) unchanged and thus never allocates
a sector, returns zero bytes for the whole first chunk (the hole region up
to the sector boundary, the length bound and the requested size), and
stops at the file length: it reads exactly min size (length - off)
bytes. -/
theorem claim_c3_read_holes (d : Disk) (ino : Inode) (size off : Nat)
    (hhole : (get_data_block d ino.sector off false).2 = none)
    (hofflen : (off : Int) < (d.sec ino.sector).length) :
    (inode_read_at d ino size off).1 = d ∧
    (inode_read_at d ino size off).2.take (read_chunk d ino.sector size off).toNat =
      List.replicate (read_chunk d ino.sector size off).toNat 0 ∧
    (inode_read_at d ino size off).2.length =
      min size (((d.sec ino.sector).length - (off : Int)).toNat) := by
  refine ⟨read_loop_fst size d ino.sector off, ?_, read_loop_length size d ino.sector off⟩
  unfold inode_read_at
  rw [read_loop]
  by_cases hc : read_chunk d ino.sector size off ≤ 0
  · rw [dif_pos hc]
    have : (read_chunk d ino.sector size off).toNat = 0 := by omega
    rw [this]
    rfl
  · rw [dif_neg hc]
    simp only [hhole]
    have hlen : (List.replicate (read_chunk d ino.sector size off).toNat (0 : Nat)).length =
        (read_chunk d ino.sector size off).toNat := List.length_replicate _ _
    exact List.take_left' hlen

def holeDisk : Disk :=
  { sec := fun s => if s = 1 then { zeroSector with length := 600 } else zeroSector
    nextFree := 2 }

def holeInode : Inode :=
  { sector := 1, open_cnt := 1, removed := false, deny_write_cnt := 0, write_cnt := 0 }

/-- Witness for claim C3: a file of length 600 whose first data sector was
never allocated; a 10-byte read at offset 0 crosses the hole. -/
theorem claim_c3_witness :
    (get_data_block holeDisk holeInode.sector 0 false).2 = none ∧
    ((0 : Nat) : Int) < (holeDisk.sec holeInode.sector).length ∧
    ((inode_read_at holeDisk holeInode 10 0).1 = holeDisk ∧
      (inode_read_at holeDisk holeInode 10 0).2.take
          (read_chunk holeDisk holeInode.sector 10 0).toNat =
        List.replicate (read_chunk holeDisk holeInode.sector 10 0).toNat 0 ∧
      (inode_read_at holeDisk holeInode 10 0).2.length =
        min 10 (((holeDisk.sec holeInode.sector).length - ((0 : Nat) : Int)).toNat)) :=
  ⟨by decide, by decide, claim_c3_read_holes holeDisk holeInode 10 0 (by decide) (by decide)⟩

/-! ## Tree positions of an inode (proof infrastructure for claim C1)

A position in an inode's pointer tree: the header itself, the singly
indirect sector (header slot 123), the doubly indirect sector (header slot
124), the j-th second-level indirect sector under it, and the i-th logical
data block.  posSec resolves a position to the sector holding it (none for
an unallocated hole), mirroring the pointer walk of get_data_block. -/

inductive Pos where
  | root : Pos
  | ind1 : Pos
  | dbl : Pos
  | ind2 : Nat → Pos
  | data : Nat → Pos
deriving DecidableEq

def Pos.depth : Pos → Nat
  | .root => 0
  | .ind1 => 1
  | .dbl => 1
  | .ind2 _ => 2
  | .data _ => 3

def PosOk : Pos → Prop
  | .root => True
  | .ind1 => True
  | .dbl => True
  | .ind2 j => j < POINTER_MAXN
  | .data i => i < NBLOCKS

/-- The parent position and the slot within it holding the pointer to the
given position. -/
def parentSlot : Pos → Option (Pos × Nat)
  | .root => none
  | .ind1 => some (.root, DIRECT_SECTOR_MAXN)
  | .dbl => some (.root, DIRECT_SECTOR_MAXN + 1)
  | .ind2 j => some (.dbl, j)
  | .data i =>
    if i < DIRECT_SECTOR_MAXN then some (.root, i)
    else if i < DIRECT_SECTOR_MAXN + POINTER_MAXN then some (.ind1, i - DIRECT_SECTOR_MAXN)
    else some (.ind2 ((i - DIRECT_SECTOR_MAXN - POINTER_MAXN) / POINTER_MAXN),
               (i - DIRECT_SECTOR_MAXN - POINTER_MAXN) % POINTER_MAXN)

/-- Inverse of parentSlot: the position reached through slot o of p. -/
def childPos : Pos → Nat → Option Pos
  | .root, o =>
    if o < DIRECT_SECTOR_MAXN then some (.data o)
    else if o = DIRECT_SECTOR_MAXN then some .ind1
    else if o = DIRECT_SECTOR_MAXN + 1 then some .dbl
    else none
  | .ind1, o => some (.data (DIRECT_SECTOR_MAXN + o))
  | .dbl, o => some (.ind2 o)
  | .ind2 j, o => some (.data (DIRECT_SECTOR_MAXN + POINTER_MAXN + POINTER_MAXN * j + o))
  | .data _, _ => none

def nzOpt (v : Nat) : Option Nat := if v = 0 then none else some v

/-- Sector holding a position, obtained by following the (nonzero) pointer
chain from the inode header at sector rt. -/
def posSec (d : Disk) (rt : Nat) : Pos → Option Nat
  | .root => some rt
  | .ind1 => nzOpt (ptrAt d rt DIRECT_SECTOR_MAXN)
  | .dbl => nzOpt (ptrAt d rt (DIRECT_SECTOR_MAXN + 1))
  | .ind2 j => (nzOpt (ptrAt d rt (DIRECT_SECTOR_MAXN + 1))).bind fun t => nzOpt (ptrAt d t j)
  | .data i =>
    if i < DIRECT_SECTOR_MAXN then nzOpt (ptrAt d rt i)
    else if i < DIRECT_SECTOR_MAXN + POINTER_MAXN then
      (nzOpt (ptrAt d rt DIRECT_SECTOR_MAXN)).bind fun t =>
        nzOpt (ptrAt d t (i - DIRECT_SECTOR_MAXN))
    else
      ((nzOpt (ptrAt d rt (DIRECT_SECTOR_MAXN + 1))).bind fun t =>
          nzOpt (ptrAt d t ((i - DIRECT_SECTOR_MAXN - POINTER_MAXN) / POINTER_MAXN))).bind
        fun t => nzOpt (ptrAt d t ((i - DIRECT_SECTOR_MAXN - POINTER_MAXN) % POINTER_MAXN))

lemma posSec_eq_parent (d : Disk) (rt : Nat) (q p : Pos) (o : Nat)
    (h : parentSlot q = some (p, o)) :
    posSec d rt q = (posSec d rt p).bind fun t => nzOpt (ptrAt d t o) := by
  cases q with
  | root => simp [parentSlot] at h
  | ind1 =>
    simp only [parentSlot, Option.some.injEq, Prod.mk.injEq] at h
    obtain ⟨rfl, rfl⟩ := h
    simp [posSec]
  | dbl =>
    simp only [parentSlot, Option.some.injEq, Prod.mk.injEq] at h
    obtain ⟨rfl, rfl⟩ := h
    simp [posSec]
  | ind2 j =>
    simp only [parentSlot, Option.some.injEq, Prod.mk.injEq] at h
    obtain ⟨rfl, rfl⟩ := h
    simp [posSec]
  | data i =>
    by_cases h1 : i < DIRECT_SECTOR_MAXN
    · simp only [parentSlot, if_pos h1, Option.some.injEq, Prod.mk.injEq] at h
      obtain ⟨rfl, rfl⟩ := h
      simp [posSec, if_pos h1]
    · by_cases h2 : i < DIRECT_SECTOR_MAXN + POINTER_MAXN
      · simp only [parentSlot, if_neg h1, if_pos h2, Option.some.injEq, Prod.mk.injEq] at h
        obtain ⟨rfl, rfl⟩ := h
        simp [posSec, if_neg h1, if_pos h2]
      · simp only [parentSlot, if_neg h1, if_neg h2, Option.some.injEq, Prod.mk.injEq] at h
        obtain ⟨rfl, rfl⟩ := h
        simp only [posSec, if_neg h1, if_neg h2, Option.bind_assoc]

lemma parentSlot_depth (q p : Pos) (o : Nat) (h : parentSlot q = some (p, o)) :
    p.depth < q.depth := by
  cases q with
  | root => simp [parentSlot] at h
  | ind1 =>
    simp only [parentSlot, Option.some.injEq, Prod.mk.injEq] at h
    obtain ⟨rfl, rfl⟩ := h
    simp [Pos.depth]
  | dbl =>
    simp only [parentSlot, Option.some.injEq, Prod.mk.injEq] at h
    obtain ⟨rfl, rfl⟩ := h
    simp [Pos.depth]
  | ind2 j =>
    simp only [parentSlot, Option.some.injEq, Prod.mk.injEq] at h
    obtain ⟨rfl, rfl⟩ := h
    simp [Pos.depth]
  | data i =>
    by_cases h1 : i < DIRECT_SECTOR_MAXN
    · simp only [parentSlot, if_pos h1, Option.some.injEq, Prod.mk.injEq] at h
      obtain ⟨rfl, rfl⟩ := h
      simp [Pos.depth]
    · by_cases h2 : i < DIRECT_SECTOR_MAXN + POINTER_MAXN
      · simp only [parentSlot, if_neg h1, if_pos h2, Option.some.injEq, Prod.mk.injEq] at h
        obtain ⟨rfl, rfl⟩ := h
        simp [Pos.depth]
      · simp only [parentSlot, if_neg h1, if_neg h2, Option.some.injEq, Prod.mk.injEq] at h
        obtain ⟨rfl, rfl⟩ := h
        simp [Pos.depth]

lemma parentSlot_posOk (q p : Pos) (o : Nat) (hq : PosOk q) (h : parentSlot q = some (p, o)) :
    PosOk p := by
  cases q with
  | root => simp [parentSlot] at h
  | ind1 =>
    simp only [parentSlot, Option.some.injEq, Prod.mk.injEq] at h
    obtain ⟨rfl, rfl⟩ := h
    trivial
  | dbl =>
    simp only [parentSlot, Option.some.injEq, Prod.mk.injEq] at h
    obtain ⟨rfl, rfl⟩ := h
    trivial
  | ind2 j =>
    simp only [parentSlot, Option.some.injEq, Prod.mk.injEq] at h
    obtain ⟨rfl, rfl⟩ := h
    trivial
  | data i =>
    by_cases h1 : i < DIRECT_SECTOR_MAXN
    · simp only [parentSlot, if_pos h1, Option.some.injEq, Prod.mk.injEq] at h
      obtain ⟨rfl, rfl⟩ := h
      trivial
    · by_cases h2 : i < DIRECT_SECTOR_MAXN + POINTER_MAXN
      · simp only [parentSlot, if_neg h1, if_pos h2, Option.some.injEq, Prod.mk.injEq] at h
        obtain ⟨rfl, rfl⟩ := h
        trivial
      · simp only [parentSlot, if_neg h1, if_neg h2, Option.some.injEq, Prod.mk.injEq] at h
        obtain ⟨rfl, rfl⟩ := h
        have hi : i < NBLOCKS := hq
        unfold PosOk
        unfold NBLOCKS DIRECT_SECTOR_MAXN POINTER_MAXN at *
        omega

lemma parentSlot_childPos (q p : Pos) (o : Nat) (hq : PosOk q) (h : parentSlot q = some (p, o)) :
    childPos p o = some q := by
  cases q with
  | root => simp [parentSlot] at h
  | ind1 =>
    simp only [parentSlot, Option.some.injEq, Prod.mk.injEq] at h
    obtain ⟨rfl, rfl⟩ := h
    simp [childPos]
  | dbl =>
    simp only [parentSlot, Option.some.injEq, Prod.mk.injEq] at h
    obtain ⟨rfl, rfl⟩ := h
    simp [childPos, DIRECT_SECTOR_MAXN]
  | ind2 j =>
    simp only [parentSlot, Option.some.injEq, Prod.mk.injEq] at h
    obtain ⟨rfl, rfl⟩ := h
    simp [childPos]
  | data i =>
    by_cases h1 : i < DIRECT_SECTOR_MAXN
    · simp only [parentSlot, if_pos h1, Option.some.injEq, Prod.mk.injEq] at h
      obtain ⟨rfl, rfl⟩ := h
      simp [childPos, if_pos h1]
    · by_cases h2 : i < DIRECT_SECTOR_MAXN + POINTER_MAXN
      · simp only [parentSlot, if_neg h1, if_pos h2, Option.some.injEq, Prod.mk.injEq] at h
        obtain ⟨rfl, rfl⟩ := h
        simp only [childPos, Option.some.injEq, Pos.data.injEq]
        unfold DIRECT_SECTOR_MAXN at *
        omega
      · simp only [parentSlot, if_neg h1, if_neg h2, Option.some.injEq, Prod.mk.injEq] at h
        obtain ⟨rfl, rfl⟩ := h
        simp only [childPos, Option.some.injEq, Pos.data.injEq]
        unfold DIRECT_SECTOR_MAXN POINTER_MAXN at *
        omega

/-! ## The tree invariant and the effect of allocating one sector -/

/-- Well-formedness of an inode's pointer tree rooted at sector rt: every
reachable node lives below the allocation frontier, and distinct positions
occupy distinct sectors (so data sectors never alias each other, the
header, or an index sector). -/
structure Inv (d : Disk) (rt : Nat) : Prop where
  posNF : 0 < d.nextFree
  bound : ∀ p s, PosOk p → posSec d rt p = some s → s < d.nextFree
  inj : ∀ p q s, PosOk p → PosOk q → posSec d rt p = some s → posSec d rt q = some s → p = q

/-- The allocation step of get_data_block: write the fresh sector number
d.nextFree into slot o of sector t, advance the free map, zero the fresh
sector (free_map_allocate + cache_dirty + cache_setzero). -/
def hook (d : Disk) (t o : Nat) : Disk :=
  (({ d.setSec t ((d.sec t).setPtr o d.nextFree) with nextFree := d.nextFree + 1 } :
      Disk).setSec d.nextFree zeroSector)

lemma hook_nextFree (d : Disk) (t o : Nat) : (hook d t o).nextFree = d.nextFree + 1 := rfl


lemma hook_ptrAt (d : Disk) (t o : Nat) (ht : t ≠ d.nextFree) (u v : Nat) :
    ptrAt (hook d t o) u v =
      if u = d.nextFree then 0
      else if u = t ∧ v = o then d.nextFree
      else ptrAt d u v := by
  by_cases hu : u = d.nextFree
  · simp [hook, ptrAt, Disk.setSec, hu, zeroSector]
  · rw [if_neg hu]
    by_cases hut : u = t ∧ v = o
    · obtain ⟨hu1, hu2⟩ := hut
      rw [if_pos ⟨hu1, hu2⟩]
      simp [hook, ptrAt, Disk.setSec, Sector.setPtr, hu, hu1, hu2, ht]
    · rw [if_neg hut]
      by_cases hu1 : u = t
      · have hv : ¬ v = o := fun hv => hut ⟨hu1, hv⟩
        simp [hook, ptrAt, Disk.setSec, Sector.setPtr, hu, hu1, hv, ht]
      · simp [hook, ptrAt, Disk.setSec, Sector.setPtr, hu, hu1, ht]

lemma hook_bytes (d : Disk) (t o s : Nat) (hs : s ≠ d.nextFree) :
    ((hook d t o).sec s).bytes = (d.sec s).bytes := by
  simp only [hook, Disk.setSec]
  rw [if_neg hs]
  by_cases hst : s = t
  · subst hst
    rw [if_pos rfl]
    rfl
  · rw [if_neg hst]

lemma hook_length_sec (d : Disk) (t o s : Nat) (hs : s ≠ d.nextFree) :
    ((hook d t o).sec s).length = (d.sec s).length := by
  simp only [hook, Disk.setSec]
  rw [if_neg hs]
  by_cases hst : s = t
  · subst hst
    rw [if_pos rfl]
    rfl
  · rw [if_neg hst]

lemma hook_fresh_sec (d : Disk) (t o : Nat) : (hook d t o).sec d.nextFree = zeroSector := by
  simp [hook, Disk.setSec]

/-- One induction step for the effect of hook on posSec: if allocation
changes posSec only at position p0 as seen from the parent p', the same
holds one level further down at the child q. -/
lemma hook_step (d : Disk) (rt : Nat) (hInv : Inv d rt) (p0 p : Pos) (t o : Nat)
    (hp0 : parentSlot p0 = some (p, o)) (hPp0 : PosOk p0) (hPp : PosOk p)
    (ht : posSec d rt p = some t) (hzero : ptrAt d t o = 0)
    (q p' : Pos) (o' : Nat)
    (hq : parentSlot q = some (p', o')) (hPq : PosOk q) (hPp' : PosOk p')
    (IH : posSec (hook d t o) rt p' = if p' = p0 then some d.nextFree else posSec d rt p') :
    posSec (hook d t o) rt q = if q = p0 then some d.nextFree else posSec d rt q := by
  have htn : t < d.nextFree := hInv.bound p t hPp ht
  have hptr := hook_ptrAt d t o (by omega)
  rw [posSec_eq_parent (hook d t o) rt q p' o' hq, IH]
  by_cases hpp : p' = p0
  · rw [if_pos hpp]
    have hqne : q ≠ p0 := by
      intro hqe
      rw [hqe] at hq
      have heq := hq.symm.trans hp0
      have hp'p : p' = p := congrArg Prod.fst (Option.some.inj heq)
      have hdep : p.depth < p0.depth := parentSlot_depth p0 p o hp0
      rw [← hp'p, hpp] at hdep
      omega
    rw [if_neg hqne]
    have hRHS : posSec d rt q = none := by
      rw [posSec_eq_parent d rt q p' o' hq, hpp, posSec_eq_parent d rt p0 p o hp0, ht]
      simp only [Option.some_bind, hzero]
      simp [nzOpt]
    rw [hRHS]
    simp only [Option.some_bind]
    rw [hptr d.nextFree o', if_pos rfl]
    simp [nzOpt]
  · rw [if_neg hpp]
    rcases hu : posSec d rt p' with _ | u
    · have hqne : q ≠ p0 := by
        intro hqe
        rw [hqe] at hq
        have heq := hq.symm.trans hp0
        have hp'p : p' = p := congrArg Prod.fst (Option.some.inj heq)
        rw [hp'p, ht] at hu
        exact Option.noConfusion hu
      rw [if_neg hqne, posSec_eq_parent d rt q p' o' hq, hu]
      rfl
    · have hun : u < d.nextFree := hInv.bound p' u hPp' hu
      simp only [Option.some_bind]
      rw [hptr u o', if_neg (by omega)]
      by_cases hut : u = t ∧ o' = o
      · rw [if_pos hut]
        have hp'p : p' = p := hInv.inj p' p t hPp' hPp (hut.1 ▸ hu) ht
        have hqp0 : q = p0 := by
          have hcq := parentSlot_childPos q p' o' hPq hq
          have hcp0 := parentSlot_childPos p0 p o hPp0 hp0
          rw [hp'p, hut.2] at hcq
          exact Option.some.inj (hcq.symm.trans hcp0)
        rw [if_pos hqp0]
        have hn0 : d.nextFree ≠ 0 := Nat.pos_iff_ne_zero.mp hInv.posNF
        simp [nzOpt, hn0]
      · rw [if_neg hut]
        have hqne : q ≠ p0 := by
          intro hqe
          rw [hqe] at hq
          have heq := hq.symm.trans hp0
          have hp'p : p' = p := congrArg Prod.fst (Option.some.inj heq)
          have ho'o : o' = o := congrArg Prod.snd (Option.some.inj heq)
          rw [hp'p, ht] at hu
          exact hut ⟨(Option.some.inj hu).symm, ho'o⟩
        rw [if_neg hqne, posSec_eq_parent d rt q p' o' hq, hu]
        rfl

lemma hook_posSec (d : Disk) (rt : Nat) (hInv : Inv d rt) (p0 p : Pos) (t o : Nat)
    (hp0 : parentSlot p0 = some (p, o)) (hPp0 : PosOk p0) (hPp : PosOk p)
    (ht : posSec d rt p = some t) (hzero : ptrAt d t o = 0) :
    ∀ q, PosOk q →
      posSec (hook d t o) rt q = if q = p0 then some d.nextFree else posSec d rt q := by
  have hroot : posSec (hook d t o) rt .root =
      if (Pos.root : Pos) = p0 then some d.nextFree else posSec d rt .root := by
    have hne : (Pos.root : Pos) ≠ p0 := by
      intro he
      rw [← he] at hp0
      simp [parentSlot] at hp0
    rw [if_neg hne]
    rfl
  have hind1 := hook_step d rt hInv p0 p t o hp0 hPp0 hPp ht hzero .ind1 .root
    DIRECT_SECTOR_MAXN rfl trivial trivial hroot
  have hdbl := hook_step d rt hInv p0 p t o hp0 hPp0 hPp ht hzero .dbl .root
    (DIRECT_SECTOR_MAXN + 1) rfl trivial trivial hroot
  have hind2 : ∀ j, j < POINTER_MAXN → posSec (hook d t o) rt (.ind2 j) =
      if (Pos.ind2 j : Pos) = p0 then some d.nextFree else posSec d rt (.ind2 j) := fun j hj =>
    hook_step d rt hInv p0 p t o hp0 hPp0 hPp ht hzero (.ind2 j) .dbl j rfl hj trivial hdbl
  intro q hq
  cases q with
  | root => exact hroot
  | ind1 => exact hind1
  | dbl => exact hdbl
  | ind2 j => exact hind2 j hq
  | data i =>
    by_cases h1 : i < DIRECT_SECTOR_MAXN
    · exact hook_step d rt hInv p0 p t o hp0 hPp0 hPp ht hzero (.data i) .root i
        (by simp [parentSlot, h1]) hq trivial hroot
    · by_cases h2 : i < DIRECT_SECTOR_MAXN + POINTER_MAXN
      · exact hook_step d rt hInv p0 p t o hp0 hPp0 hPp ht hzero (.data i) .ind1
          (i - DIRECT_SECTOR_MAXN) (by simp [parentSlot, h1, h2]) hq trivial hind1
      · have hi : i < NBLOCKS := hq
        have hjlt : (i - DIRECT_SECTOR_MAXN - POINTER_MAXN) / POINTER_MAXN < POINTER_MAXN := by
          unfold NBLOCKS DIRECT_SECTOR_MAXN POINTER_MAXN at *
          omega
        exact hook_step d rt hInv p0 p t o hp0 hPp0 hPp ht hzero (.data i)
          (.ind2 ((i - DIRECT_SECTOR_MAXN - POINTER_MAXN) / POINTER_MAXN))
          ((i - DIRECT_SECTOR_MAXN - POINTER_MAXN) % POINTER_MAXN)
          (by simp [parentSlot, h1, h2]) hq hjlt
          (hind2 _ hjlt)

/-- Before the allocation, the hooked position is a hole. -/
lemma posSec_p0_none (d : Disk) (rt : Nat) (p0 p : Pos) (t o : Nat)
    (hp0 : parentSlot p0 = some (p, o))
    (ht : posSec d rt p = some t) (hzero : ptrAt d t o = 0) :
    posSec d rt p0 = none := by
  rw [posSec_eq_parent d rt p0 p o hp0, ht]
  simp [nzOpt, hzero]

lemma hook_Inv (d : Disk) (rt : Nat) (hInv : Inv d rt) (p0 p : Pos) (t o : Nat)
    (hp0 : parentSlot p0 = some (p, o)) (hPp0 : PosOk p0) (hPp : PosOk p)
    (ht : posSec d rt p = some t) (hzero : ptrAt d t o = 0) :
    Inv (hook d t o) rt := by
  have hps := hook_posSec d rt hInv p0 p t o hp0 hPp0 hPp ht hzero
  constructor
  · rw [hook_nextFree]
    omega
  · intro q s hPq hq
    rw [hps q hPq] at hq
    rw [hook_nextFree]
    by_cases hqp : q = p0
    · rw [if_pos hqp] at hq
      have := Option.some.inj hq
      omega
    · rw [if_neg hqp] at hq
      have := hInv.bound q s hPq hq
      omega
  · intro q1 q2 s hP1 hP2 h1 h2
    rw [hps q1 hP1] at h1
    rw [hps q2 hP2] at h2
    by_cases ha : q1 = p0 <;> by_cases hb : q2 = p0
    · rw [ha, hb]
    · rw [if_pos ha] at h1
      rw [if_neg hb] at h2
      have hs : d.nextFree = s := Option.some.inj h1
      have := hInv.bound q2 s hP2 h2
      omega
    · rw [if_neg ha] at h1
      rw [if_pos hb] at h2
      have hs : d.nextFree = s := Option.some.inj h2
      have := hInv.bound q1 s hP1 h1
      omega
    · rw [if_neg ha] at h1
      rw [if_neg hb] at h2
      exact hInv.inj q1 q2 s hP1 hP2 h1 h2

/-! ## Byte content of a logical block -/

/-- The byte stored at file position pos: zero if the containing logical
block is a hole, else the byte of its data sector. -/
def blockByte (d : Disk) (rt : Nat) (pos : Nat) : Nat :=
  match posSec d rt (.data (pos / BLOCK_SECTOR_SIZE)) with
  | none => 0
  | some s => (d.sec s).bytes (pos % BLOCK_SECTOR_SIZE)

lemma hook_blockByte (d : Disk) (rt : Nat) (hInv : Inv d rt) (p0 p : Pos) (t o : Nat)
    (hp0 : parentSlot p0 = some (p, o)) (hPp0 : PosOk p0) (hPp : PosOk p)
    (ht : posSec d rt p = some t) (hzero : ptrAt d t o = 0)
    (pos : Nat) (hpos : pos / BLOCK_SECTOR_SIZE < NBLOCKS) :
    blockByte (hook d t o) rt pos = blockByte d rt pos := by
  unfold blockByte
  rw [hook_posSec d rt hInv p0 p t o hp0 hPp0 hPp ht hzero (.data (pos / BLOCK_SECTOR_SIZE)) hpos]
  by_cases hqp : (Pos.data (pos / BLOCK_SECTOR_SIZE) : Pos) = p0
  · rw [if_pos hqp]
    have hold : posSec d rt (.data (pos / BLOCK_SECTOR_SIZE)) = none := by
      rw [hqp]
      exact posSec_p0_none d rt p0 p t o hp0 ht hzero
    rw [hold]
    show ((hook d t o).sec d.nextFree).bytes (pos % BLOCK_SECTOR_SIZE) = 0
    rw [hook_fresh_sec]
    rfl
  · rw [if_neg hqp]
    rcases hs : posSec d rt (.data (pos / BLOCK_SECTOR_SIZE)) with _ | s
    · rfl
    · have hlt := hInv.bound (.data (pos / BLOCK_SECTOR_SIZE)) s hpos hs
      show ((hook d t o).sec s).bytes (pos % BLOCK_SECTOR_SIZE) = (d.sec s).bytes _
      rw [hook_bytes d t o s (by omega)]

/-! ## Congruence lemmas for pointer-preserving disk updates -/

lemma posSec_congr (d d2 : Disk) (rt : Nat) (h : ∀ u v, ptrAt d2 u v = ptrAt d u v) :
    ∀ q, posSec d2 rt q = posSec d rt q := by
  intro q
  cases q <;> simp only [posSec, h]

lemma Inv_congr (d d2 : Disk) (rt : Nat) (h : ∀ u v, ptrAt d2 u v = ptrAt d u v)
    (hnf : d2.nextFree = d.nextFree) (hInv : Inv d rt) : Inv d2 rt := by
  constructor
  · rw [hnf]
    exact hInv.posNF
  · intro p s hP hps
    rw [posSec_congr d d2 rt h] at hps
    rw [hnf]
    exact hInv.bound p s hP hps
  · intro p q s hP hQ h1 h2
    rw [posSec_congr d d2 rt h] at h1 h2
    exact hInv.inj p q s hP hQ h1 h2

lemma blockByte_congr (d d2 : Disk) (rt : Nat) (hptr : ∀ u v, ptrAt d2 u v = ptrAt d u v)
    (hbytes : ∀ u, (d2.sec u).bytes = (d.sec u).bytes) (pos : Nat) :
    blockByte d2 rt pos = blockByte d rt pos := by
  unfold blockByte
  rw [posSec_congr d d2 rt hptr]
  rcases posSec d rt (.data (pos / BLOCK_SECTOR_SIZE)) with _ | s
  · rfl
  · exact congrFun (hbytes s) _

/-! ## Step equations of the get_data_block walk -/

lemma walk_last_nonzero (d : Disk) (cur o : Nat) (alloc : Bool) (h : ptrAt d cur o ≠ 0) :
    get_data_block_walk d cur [o] alloc = (d, some (ptrAt d cur o)) := by
  simp only [get_data_block_walk, if_pos h]

lemma walk_cons_nonzero (d : Disk) (cur o r : Nat) (rs : List Nat) (alloc : Bool)
    (h : ptrAt d cur o ≠ 0) :
    get_data_block_walk d cur (o :: r :: rs) alloc =
      get_data_block_walk d (ptrAt d cur o) (r :: rs) alloc := by
  simp only [get_data_block_walk, if_pos h]

lemma walk_last_zero_alloc (d : Disk) (cur o : Nat) (h : ptrAt d cur o = 0) :
    get_data_block_walk d cur [o] true = (hook d cur o, some d.nextFree) := by
  simp only [get_data_block_walk, if_neg (not_not_intro h), Bool.not_true, hook]
  rfl

lemma walk_cons_zero_alloc (d : Disk) (cur o r : Nat) (rs : List Nat)
    (h : ptrAt d cur o = 0) :
    get_data_block_walk d cur (o :: r :: rs) true =
      get_data_block_walk (hook d cur o) d.nextFree (r :: rs) true := by
  simp only [get_data_block_walk, if_neg (not_not_intro h), Bool.not_true, hook]
  rfl

/-! ## resolve_offset in the three ranges -/

lemma resolve_offset_direct (i : Nat) (h : i < DIRECT_SECTOR_MAXN) :
    resolve_offset i = [i] := by
  unfold resolve_offset
  rw [if_pos h]

lemma resolve_offset_single (i : Nat) (h1 : ¬ i < DIRECT_SECTOR_MAXN)
    (h2 : i < DIRECT_SECTOR_MAXN + POINTER_MAXN) :
    resolve_offset i = [DIRECT_SECTOR_MAXN, i - DIRECT_SECTOR_MAXN] := by
  unfold resolve_offset
  rw [if_neg h1, if_pos (show i - DIRECT_SECTOR_MAXN < POINTER_MAXN by
    unfold DIRECT_SECTOR_MAXN POINTER_MAXN at *
    omega)]
  have e1 : DIRECT_SECTOR_MAXN + (i - DIRECT_SECTOR_MAXN) / POINTER_MAXN =
      DIRECT_SECTOR_MAXN := by
    unfold DIRECT_SECTOR_MAXN POINTER_MAXN at *
    omega
  have e2 : (i - DIRECT_SECTOR_MAXN) % POINTER_MAXN = i - DIRECT_SECTOR_MAXN := by
    unfold DIRECT_SECTOR_MAXN POINTER_MAXN at *
    omega
  rw [e1, e2]

lemma resolve_offset_double (i : Nat) (h1 : ¬ i < DIRECT_SECTOR_MAXN)
    (h2 : ¬ i < DIRECT_SECTOR_MAXN + POINTER_MAXN) (h3 : i < NBLOCKS) :
    resolve_offset i = [DIRECT_SECTOR_MAXN + 1,
      (i - DIRECT_SECTOR_MAXN - POINTER_MAXN) / POINTER_MAXN,
      (i - DIRECT_SECTOR_MAXN - POINTER_MAXN) % POINTER_MAXN] := by
  unfold resolve_offset
  rw [if_neg h1,
    if_neg (show ¬ i - DIRECT_SECTOR_MAXN < POINTER_MAXN by
      unfold DIRECT_SECTOR_MAXN POINTER_MAXN at *
      omega),
    if_pos (show i - DIRECT_SECTOR_MAXN - POINTER_MAXN < POINTER_MAXN * POINTER_MAXN by
      unfold NBLOCKS DIRECT_SECTOR_MAXN POINTER_MAXN at *
      omega)]
  have e1 : DIRECT_SECTOR_MAXN + 1 +
      (i - DIRECT_SECTOR_MAXN - POINTER_MAXN) / (POINTER_MAXN * POINTER_MAXN) =
      DIRECT_SECTOR_MAXN + 1 := by
    unfold NBLOCKS DIRECT_SECTOR_MAXN POINTER_MAXN at *
    omega
  rw [e1]

/-- Package of all facts about one hook (allocation of one fresh sector at
a hole position). -/
lemma hook_pack (d : Disk) (rt : Nat) (hInv : Inv d rt) (p0 p : Pos) (t o : Nat)
    (hp0 : parentSlot p0 = some (p, o)) (hPp0 : PosOk p0) (hPp : PosOk p)
    (ht : posSec d rt p = some t) (hzero : ptrAt d t o = 0) :
    Inv (hook d t o) rt ∧
    posSec (hook d t o) rt p0 = some d.nextFree ∧
    (∀ q, PosOk q → q ≠ p0 → posSec (hook d t o) rt q = posSec d rt q) ∧
    (∀ pos, pos / BLOCK_SECTOR_SIZE < NBLOCKS →
      blockByte (hook d t o) rt pos = blockByte d rt pos) ∧
    ((hook d t o).sec rt).length = (d.sec rt).length ∧
    (∀ v, ptrAt (hook d t o) d.nextFree v = 0) := by
  have hps := hook_posSec d rt hInv p0 p t o hp0 hPp0 hPp ht hzero
  refine ⟨hook_Inv d rt hInv p0 p t o hp0 hPp0 hPp ht hzero, ?_, ?_, ?_, ?_, ?_⟩
  · rw [hps p0 hPp0, if_pos rfl]
  · intro q hq hne
    rw [hps q hq, if_neg hne]
  · exact fun pos hpos => hook_blockByte d rt hInv p0 p t o hp0 hPp0 hPp ht hzero pos hpos
  · have hrt : rt < d.nextFree := hInv.bound .root rt trivial rfl
    exact hook_length_sec d t o rt (by omega)
  · intro v
    show ((hook d t o).sec d.nextFree).ptrs v = 0
    rw [hook_fresh_sec]
    rfl

lemma posSec_data_direct (d : Disk) (rt i : Nat) (h : i < DIRECT_SECTOR_MAXN) :
    posSec d rt (.data i) = nzOpt (ptrAt d rt i) := by
  simp [posSec, h]

lemma posSec_data_single (d : Disk) (rt i : Nat) (h1 : ¬ i < DIRECT_SECTOR_MAXN)
    (h2 : i < DIRECT_SECTOR_MAXN + POINTER_MAXN) :
    posSec d rt (.data i) = (nzOpt (ptrAt d rt DIRECT_SECTOR_MAXN)).bind fun t =>
      nzOpt (ptrAt d t (i - DIRECT_SECTOR_MAXN)) := by
  simp [posSec, h1, h2]

lemma posSec_data_double (d : Disk) (rt i : Nat) (h1 : ¬ i < DIRECT_SECTOR_MAXN)
    (h2 : ¬ i < DIRECT_SECTOR_MAXN + POINTER_MAXN) :
    posSec d rt (.data i) =
      ((nzOpt (ptrAt d rt (DIRECT_SECTOR_MAXN + 1))).bind fun t =>
        nzOpt (ptrAt d t ((i - DIRECT_SECTOR_MAXN - POINTER_MAXN) / POINTER_MAXN))).bind
        fun t => nzOpt (ptrAt d t ((i - DIRECT_SECTOR_MAXN - POINTER_MAXN) % POINTER_MAXN)) := by
  simp [posSec, h1, h2]

/-- Correctness of get_data_block with allocate = true: it returns a data
sector for logical block i, re-establishes the tree invariant, and changes
no block content and not the header length (a fresh block is zeroed, and a
hole already reads as zeros). -/
lemma get_data_block_alloc (d : Disk) (rt : Nat) (i : Nat) (hInv : Inv d rt)
    (hi : i < NBLOCKS) :
    ∃ d2 s, get_data_block_walk d rt (resolve_offset i) true = (d2, some s) ∧
      Inv d2 rt ∧ posSec d2 rt (.data i) = some s ∧
      (∀ pos, pos / BLOCK_SECTOR_SIZE < NBLOCKS → blockByte d2 rt pos = blockByte d rt pos) ∧
      (d2.sec rt).length = (d.sec rt).length := by
  have hiOk : PosOk (.data i) := hi
  by_cases h1 : i < DIRECT_SECTOR_MAXN
  · rw [resolve_offset_direct i h1]
    by_cases hz : ptrAt d rt i = 0
    · rw [walk_last_zero_alloc d rt i hz]
      have hpar : parentSlot (.data i) = some (.root, i) := by simp [parentSlot, h1]
      obtain ⟨hI, hnew, _, hbb, hlen, _⟩ :=
        hook_pack d rt hInv (.data i) .root rt i hpar hiOk trivial rfl hz
      exact ⟨hook d rt i, d.nextFree, rfl, hI, hnew, hbb, hlen⟩
    · rw [walk_last_nonzero d rt i true hz]
      refine ⟨d, ptrAt d rt i, rfl, hInv, ?_, fun pos _ => rfl, rfl⟩
      rw [posSec_data_direct d rt i h1]
      simp [nzOpt, hz]
  · by_cases h2 : i < DIRECT_SECTOR_MAXN + POINTER_MAXN
    · rw [resolve_offset_single i h1 h2]
      have hpar : parentSlot (.data i) = some (.ind1, i - DIRECT_SECTOR_MAXN) := by
        simp [parentSlot, h1, h2]
      by_cases hz1 : ptrAt d rt DIRECT_SECTOR_MAXN = 0
      · rw [walk_cons_zero_alloc d rt DIRECT_SECTOR_MAXN (i - DIRECT_SECTOR_MAXN) [] hz1]
        obtain ⟨hIA, hnewA, _, hbbA, hlenA, hfreshA⟩ :=
          hook_pack d rt hInv .ind1 .root rt DIRECT_SECTOR_MAXN rfl trivial trivial rfl hz1
        rw [walk_last_zero_alloc _ _ _ (hfreshA (i - DIRECT_SECTOR_MAXN))]
        obtain ⟨hIB, hnewB, _, hbbB, hlenB, _⟩ :=
          hook_pack (hook d rt DIRECT_SECTOR_MAXN) rt hIA (.data i) .ind1 d.nextFree
            (i - DIRECT_SECTOR_MAXN) hpar hiOk trivial hnewA
            (hfreshA (i - DIRECT_SECTOR_MAXN))
        exact ⟨_, _, rfl, hIB, hnewB,
          fun pos hpos => (hbbB pos hpos).trans (hbbA pos hpos), hlenB.trans hlenA⟩
      · rw [walk_cons_nonzero d rt DIRECT_SECTOR_MAXN (i - DIRECT_SECTOR_MAXN) [] true hz1]
        have ht1 : posSec d rt .ind1 = some (ptrAt d rt DIRECT_SECTOR_MAXN) := by
          simp [posSec, nzOpt, hz1]
        by_cases hz2 : ptrAt d (ptrAt d rt DIRECT_SECTOR_MAXN) (i - DIRECT_SECTOR_MAXN) = 0
        · rw [walk_last_zero_alloc _ _ _ hz2]
          obtain ⟨hI, hnew, _, hbb, hlen, _⟩ :=
            hook_pack d rt hInv (.data i) .ind1 (ptrAt d rt DIRECT_SECTOR_MAXN)
              (i - DIRECT_SECTOR_MAXN) hpar hiOk trivial ht1 hz2
          exact ⟨_, _, rfl, hI, hnew, hbb, hlen⟩
        · rw [walk_last_nonzero _ _ _ _ hz2]
          refine ⟨d, _, rfl, hInv, ?_, fun pos _ => rfl, rfl⟩
          rw [posSec_data_single d rt i h1 h2]
          simp [nzOpt, hz1, hz2]
    · have hj : (i - DIRECT_SECTOR_MAXN - POINTER_MAXN) / POINTER_MAXN < POINTER_MAXN := by
        unfold NBLOCKS DIRECT_SECTOR_MAXN POINTER_MAXN at *
        omega
      have hjOk : PosOk (.ind2 ((i - DIRECT_SECTOR_MAXN - POINTER_MAXN) / POINTER_MAXN)) := hj
      have hpar : parentSlot (.data i) =
          some (.ind2 ((i - DIRECT_SECTOR_MAXN - POINTER_MAXN) / POINTER_MAXN),
            (i - DIRECT_SECTOR_MAXN - POINTER_MAXN) % POINTER_MAXN) := by
        simp [parentSlot, h1, h2]
      rw [resolve_offset_double i h1 h2 hi]
      by_cases hz1 : ptrAt d rt (DIRECT_SECTOR_MAXN + 1) = 0
      · rw [walk_cons_zero_alloc d rt (DIRECT_SECTOR_MAXN + 1) _ _ hz1]
        obtain ⟨hIA, hnewA, _, hbbA, hlenA, hfreshA⟩ :=
          hook_pack d rt hInv .dbl .root rt (DIRECT_SECTOR_MAXN + 1) rfl trivial trivial rfl hz1
        rw [walk_cons_zero_alloc _ _ _ _ _
          (hfreshA ((i - DIRECT_SECTOR_MAXN - POINTER_MAXN) / POINTER_MAXN))]
        obtain ⟨hIB, hnewB, _, hbbB, hlenB, hfreshB⟩ :=
          hook_pack (hook d rt (DIRECT_SECTOR_MAXN + 1)) rt hIA
            (.ind2 ((i - DIRECT_SECTOR_MAXN - POINTER_MAXN) / POINTER_MAXN)) .dbl d.nextFree
            ((i - DIRECT_SECTOR_MAXN - POINTER_MAXN) / POINTER_MAXN) rfl hjOk trivial hnewA
            (hfreshA _)
        rw [walk_last_zero_alloc _ _ _
          (hfreshB ((i - DIRECT_SECTOR_MAXN - POINTER_MAXN) % POINTER_MAXN))]
        obtain ⟨hIC, hnewC, _, hbbC, hlenC, _⟩ :=
          hook_pack _ rt hIB (.data i)
            (.ind2 ((i - DIRECT_SECTOR_MAXN - POINTER_MAXN) / POINTER_MAXN)) _
            ((i - DIRECT_SECTOR_MAXN - POINTER_MAXN) % POINTER_MAXN) hpar hiOk hjOk hnewB
            (hfreshB _)
        exact ⟨_, _, rfl, hIC, hnewC,
          fun pos hpos => ((hbbC pos hpos).trans (hbbB pos hpos)).trans (hbbA pos hpos),
          (hlenC.trans hlenB).trans hlenA⟩
      · rw [walk_cons_nonzero d rt (DIRECT_SECTOR_MAXN + 1) _ _ true hz1]
        have ht1 : posSec d rt .dbl = some (ptrAt d rt (DIRECT_SECTOR_MAXN + 1)) := by
          simp [posSec, nzOpt, hz1]
        by_cases hz2 : ptrAt d (ptrAt d rt (DIRECT_SECTOR_MAXN + 1))
            ((i - DIRECT_SECTOR_MAXN - POINTER_MAXN) / POINTER_MAXN) = 0
        · rw [walk_cons_zero_alloc _ _ _ _ _ hz2]
          obtain ⟨hIB, hnewB, _, hbbB, hlenB, hfreshB⟩ :=
            hook_pack d rt hInv
              (.ind2 ((i - DIRECT_SECTOR_MAXN - POINTER_MAXN) / POINTER_MAXN)) .dbl
              (ptrAt d rt (DIRECT_SECTOR_MAXN + 1))
              ((i - DIRECT_SECTOR_MAXN - POINTER_MAXN) / POINTER_MAXN) rfl hjOk trivial ht1 hz2
          rw [walk_last_zero_alloc _ _ _
            (hfreshB ((i - DIRECT_SECTOR_MAXN - POINTER_MAXN) % POINTER_MAXN))]
          obtain ⟨hIC, hnewC, _, hbbC, hlenC, _⟩ :=
            hook_pack _ rt hIB (.data i)
              (.ind2 ((i - DIRECT_SECTOR_MAXN - POINTER_MAXN) / POINTER_MAXN)) _
              ((i - DIRECT_SECTOR_MAXN - POINTER_MAXN) % POINTER_MAXN) hpar hiOk hjOk hnewB
              (hfreshB _)
          exact ⟨_, _, rfl, hIC, hnewC,
            fun pos hpos => (hbbC pos hpos).trans (hbbB pos hpos), hlenC.trans hlenB⟩
        · have ht2 : posSec d rt
              (.ind2 ((i - DIRECT_SECTOR_MAXN - POINTER_MAXN) / POINTER_MAXN)) =
              some (ptrAt d (ptrAt d rt (DIRECT_SECTOR_MAXN + 1))
                ((i - DIRECT_SECTOR_MAXN - POINTER_MAXN) / POINTER_MAXN)) := by
            simp [posSec, nzOpt, hz1, hz2]
          by_cases hz3 : ptrAt d (ptrAt d (ptrAt d rt (DIRECT_SECTOR_MAXN + 1))
              ((i - DIRECT_SECTOR_MAXN - POINTER_MAXN) / POINTER_MAXN))
              ((i - DIRECT_SECTOR_MAXN - POINTER_MAXN) % POINTER_MAXN) = 0
          · rw [walk_cons_nonzero _ _ _ _ _ true hz2, walk_last_zero_alloc _ _ _ hz3]
            obtain ⟨hIC, hnewC, _, hbbC, hlenC, _⟩ :=
              hook_pack d rt hInv (.data i)
                (.ind2 ((i - DIRECT_SECTOR_MAXN - POINTER_MAXN) / POINTER_MAXN)) _
                ((i - DIRECT_SECTOR_MAXN - POINTER_MAXN) % POINTER_MAXN) hpar hiOk hjOk ht2 hz3
            exact ⟨_, _, rfl, hIC, hnewC, hbbC, hlenC⟩
          · rw [walk_cons_nonzero _ _ _ _ _ true hz2, walk_last_nonzero _ _ _ _ hz3]
            refine ⟨d, _, rfl, hInv, ?_, fun pos _ => rfl, rfl⟩
            rw [posSec_data_double d rt i h1 h2]
            simp [nzOpt, hz1, hz2, hz3]

lemma walk_zero_noalloc (d : Disk) (cur o : Nat) (rest : List Nat)
    (h : ptrAt d cur o = 0) :
    get_data_block_walk d cur (o :: rest) false = (d, none) := by
  cases rest <;> simp [get_data_block_walk, h]

/-- The read-path walk resolves exactly like posSec. -/
lemma get_data_block_noalloc_posSec (d : Disk) (rt i : Nat) (hi : i < NBLOCKS) :
    (get_data_block_walk d rt (resolve_offset i) false).2 = posSec d rt (.data i) := by
  by_cases h1 : i < DIRECT_SECTOR_MAXN
  · rw [resolve_offset_direct i h1, posSec_data_direct d rt i h1]
    by_cases hz : ptrAt d rt i = 0
    · rw [walk_zero_noalloc d rt i [] hz]
      simp [nzOpt, hz]
    · rw [walk_last_nonzero d rt i false hz]
      simp [nzOpt, hz]
  · by_cases h2 : i < DIRECT_SECTOR_MAXN + POINTER_MAXN
    · rw [resolve_offset_single i h1 h2, posSec_data_single d rt i h1 h2]
      by_cases hz1 : ptrAt d rt DIRECT_SECTOR_MAXN = 0
      · rw [walk_zero_noalloc d rt DIRECT_SECTOR_MAXN _ hz1]
        simp [nzOpt, hz1]
      · rw [walk_cons_nonzero d rt DIRECT_SECTOR_MAXN _ _ false hz1]
        by_cases hz2 : ptrAt d (ptrAt d rt DIRECT_SECTOR_MAXN) (i - DIRECT_SECTOR_MAXN) = 0
        · rw [walk_zero_noalloc _ _ _ _ hz2]
          simp [nzOpt, hz1, hz2]
        · rw [walk_last_nonzero _ _ _ _ hz2]
          simp [nzOpt, hz1, hz2]
    · rw [resolve_offset_double i h1 h2 hi, posSec_data_double d rt i h1 h2]
      by_cases hz1 : ptrAt d rt (DIRECT_SECTOR_MAXN + 1) = 0
      · rw [walk_zero_noalloc d rt (DIRECT_SECTOR_MAXN + 1) _ hz1]
        simp [nzOpt, hz1]
      · rw [walk_cons_nonzero d rt (DIRECT_SECTOR_MAXN + 1) _ _ false hz1]
        by_cases hz2 : ptrAt d (ptrAt d rt (DIRECT_SECTOR_MAXN + 1))
            ((i - DIRECT_SECTOR_MAXN - POINTER_MAXN) / POINTER_MAXN) = 0
        · rw [walk_zero_noalloc _ _ _ _ hz2]
          simp [nzOpt, hz1, hz2]
        · rw [walk_cons_nonzero _ _ _ _ _ false hz2]
          by_cases hz3 : ptrAt d (ptrAt d (ptrAt d rt (DIRECT_SECTOR_MAXN + 1))
              ((i - DIRECT_SECTOR_MAXN - POINTER_MAXN) / POINTER_MAXN))
              ((i - DIRECT_SECTOR_MAXN - POINTER_MAXN) % POINTER_MAXN) = 0
          · rw [walk_zero_noalloc _ _ _ _ hz3]
            simp [nzOpt, hz1, hz2, hz3]
          · rw [walk_last_nonzero _ _ _ _ hz3]
            simp [nzOpt, hz1, hz2, hz3]

/-- Effect of the memcpy of one chunk into its data sector. -/
lemma writeSec_pack (d : Disk) (rt : Nat) (hInv : Inv d rt) (s offset cn written : Nat)
    (buf : Nat → Nat)
    (hs : posSec d rt (.data (offset / BLOCK_SECTOR_SIZE)) = some s)
    (hoff : offset / BLOCK_SECTOR_SIZE < NBLOCKS)
    (hcn : offset % BLOCK_SECTOR_SIZE + cn ≤ BLOCK_SECTOR_SIZE)
    (d2 : Disk)
    (hd2 : d2 = d.setSec s ((d.sec s).memcpyIn (offset % BLOCK_SECTOR_SIZE) buf written cn)) :
    Inv d2 rt ∧
    (∀ pos, offset ≤ pos → pos < offset + cn →
      blockByte d2 rt pos = buf (written + (pos - offset))) ∧
    (∀ pos, pos / BLOCK_SECTOR_SIZE < NBLOCKS → (pos < offset ∨ offset + cn ≤ pos) →
      blockByte d2 rt pos = blockByte d rt pos) ∧
    (d2.sec rt).length = (d.sec rt).length := by
  have hptr : ∀ u v, ptrAt d2 u v = ptrAt d u v := by
    intro u v
    rw [hd2]
    simp only [ptrAt, Disk.setSec]
    by_cases hus : u = s
    · rw [if_pos hus, hus]
      rfl
    · rw [if_neg hus]
  have hnf : d2.nextFree = d.nextFree := by rw [hd2]; rfl
  have hsecOther : ∀ u, u ≠ s → d2.sec u = d.sec u := by
    intro u hu
    rw [hd2]
    simp only [Disk.setSec]
    rw [if_neg hu]
  have hlenAll : ∀ u, (d2.sec u).length = (d.sec u).length := by
    intro u
    by_cases hu : u = s
    · rw [hd2, hu]
      simp only [Disk.setSec, if_pos rfl]
      rfl
    · rw [hsecOther u hu]
  have hItwo : Inv d2 rt := Inv_congr d d2 rt hptr hnf hInv
  have hbytesS : (d2.sec s).bytes = fun j =>
      if offset % BLOCK_SECTOR_SIZE ≤ j ∧ j < offset % BLOCK_SECTOR_SIZE + cn then
        buf (written + (j - offset % BLOCK_SECTOR_SIZE))
      else (d.sec s).bytes j := by
    rw [hd2]
    simp [Disk.setSec, Sector.memcpyIn]
  refine ⟨hItwo, ?_, ?_, hlenAll rt⟩
  · intro pos hp1 hp2
    have hdiv : pos / BLOCK_SECTOR_SIZE = offset / BLOCK_SECTOR_SIZE := by
      unfold BLOCK_SECTOR_SIZE at *
      omega
    have hmod : pos % BLOCK_SECTOR_SIZE = offset % BLOCK_SECTOR_SIZE + (pos - offset) := by
      unfold BLOCK_SECTOR_SIZE at *
      omega
    unfold blockByte
    rw [posSec_congr d d2 rt hptr, hdiv, hs]
    show (d2.sec s).bytes (pos % BLOCK_SECTOR_SIZE) = buf (written + (pos - offset))
    rw [hbytesS, hmod]
    simp only []
    rw [if_pos ⟨Nat.le_add_right _ _, by omega⟩]
    congr 1
    omega
  · intro pos hpos hout
    unfold blockByte
    rw [posSec_congr d d2 rt hptr]
    rcases hv : posSec d rt (.data (pos / BLOCK_SECTOR_SIZE)) with _ | u
    · rfl
    · by_cases hu : u = s
      · subst hu
        show (d2.sec u).bytes (pos % BLOCK_SECTOR_SIZE) = (d.sec u).bytes (pos % BLOCK_SECTOR_SIZE)
        have hblk : pos / BLOCK_SECTOR_SIZE = offset / BLOCK_SECTOR_SIZE :=
          Pos.data.inj (hInv.inj _ _ u hpos hoff hv hs)
        rw [hbytesS]
        simp only []
        rw [if_neg (by
          rintro ⟨hc1, hc2⟩
          unfold BLOCK_SECTOR_SIZE at *
          omega)]
      · show (d2.sec u).bytes (pos % BLOCK_SECTOR_SIZE) = (d.sec u).bytes (pos % BLOCK_SECTOR_SIZE)
        rw [hsecOther u hu]

/-- Full correctness of the inode_write_at loop: starting from a
well-formed tree with room for the write, it writes all bytes, keeps the
invariant and the header length, sets the content of positions in the
written range to the buffer bytes, and leaves every other position's
content unchanged. -/
lemma write_loop_spec (rt : Nat) (buf : Nat → Nat) (size : Nat) :
    ∀ d offset written, Inv d rt → offset + size ≤ INODE_BYTE_MAXN →
    ∃ d2, write_loop d rt buf size offset written = (d2, written + size) ∧ Inv d2 rt ∧
      (d2.sec rt).length = (d.sec rt).length ∧
      (∀ pos, offset ≤ pos → pos < offset + size →
        blockByte d2 rt pos = buf (written + (pos - offset))) ∧
      (∀ pos, pos / BLOCK_SECTOR_SIZE < NBLOCKS → (pos < offset ∨ offset + size ≤ pos) →
        blockByte d2 rt pos = blockByte d rt pos) := by
  induction size using Nat.strong_induction_on with
  | _ size ih =>
    intro d offset written hInv hbound
    by_cases hsz : size = 0
    · subst hsz
      refine ⟨d, ?_, hInv, rfl, fun pos h1 h2 => by omega, fun pos _ _ => rfl⟩
      rw [write_loop, dif_pos (by
        unfold write_chunk
        omega)]
      simp
    · have hc : ¬ write_chunk size offset ≤ 0 := by
        unfold write_chunk INODE_BYTE_MAXN DIRECT_SECTOR_MAXN POINTER_MAXN BLOCK_SECTOR_SIZE at *
        omega
      have hcn1 : 1 ≤ (write_chunk size offset).toNat := by
        unfold write_chunk at *
        omega
      have hcnsize : (write_chunk size offset).toNat ≤ size := by
        unfold write_chunk at *
        omega
      have hcnsec : offset % BLOCK_SECTOR_SIZE + (write_chunk size offset).toNat ≤
          BLOCK_SECTOR_SIZE := by
        unfold write_chunk BLOCK_SECTOR_SIZE at *
        omega
      have hoff : offset / BLOCK_SECTOR_SIZE < NBLOCKS := by
        unfold NBLOCKS INODE_BYTE_MAXN DIRECT_SECTOR_MAXN POINTER_MAXN BLOCK_SECTOR_SIZE at *
        omega
      obtain ⟨d1, s, hwalk, hI1, hps1, hbb1, hlen1⟩ :=
        get_data_block_alloc d rt (offset / BLOCK_SECTOR_SIZE) hInv hoff
      have hgd : get_data_block d rt offset true = (d1, some s) := hwalk
      obtain ⟨hI2, hin2, hout2, hlen2⟩ :=
        writeSec_pack d1 rt hI1 s offset (write_chunk size offset).toNat written buf hps1 hoff
          hcnsec
          (d1.setSec s ((d1.sec s).memcpyIn (offset % BLOCK_SECTOR_SIZE) buf written
            (write_chunk size offset).toNat)) rfl
      obtain ⟨d3, heq3, hI3, hlen3, hin3, hout3⟩ :=
        ih (size - (write_chunk size offset).toNat) (by omega)
          (d1.setSec s ((d1.sec s).memcpyIn (offset % BLOCK_SECTOR_SIZE) buf written
            (write_chunk size offset).toNat))
          (offset + (write_chunk size offset).toNat)
          (written + (write_chunk size offset).toNat) hI2 (by omega)
      refine ⟨d3, ?_, hI3, ?_, ?_, ?_⟩
      · rw [write_loop, dif_neg hc]
        simp only [hgd, heq3]
        congr 1
        omega
      · rw [hlen3, hlen2, hlen1]
      · intro pos hp1 hp2
        by_cases hcase : pos < offset + (write_chunk size offset).toNat
        · rw [hout3 pos (by
            unfold NBLOCKS INODE_BYTE_MAXN DIRECT_SECTOR_MAXN POINTER_MAXN BLOCK_SECTOR_SIZE at *
            omega) (Or.inl hcase)]
          exact hin2 pos hp1 hcase
        · rw [hin3 pos (by omega) (by omega)]
          congr 1
          omega
      · intro pos hposlt hout
        rw [hout3 pos hposlt (by omega), hout2 pos hposlt (by omega), hbb1 pos hposlt]

/-- Effects of publishing the new length: tree, block contents and the
invariant are untouched, and the new length dominates both the old length
and the published value. -/
lemma update_length_pack (d : Disk) (ino : Inode) (L : Int) (hInv : Inv d ino.sector) :
    Inv (update_inode_length d ino L) ino.sector ∧
    (∀ pos, blockByte (update_inode_length d ino L) ino.sector pos =
      blockByte d ino.sector pos) ∧
    L ≤ ((update_inode_length d ino L).sec ino.sector).length ∧
    (d.sec ino.sector).length ≤ ((update_inode_length d ino L).sec ino.sector).length := by
  unfold update_inode_length
  by_cases hL : L > (d.sec ino.sector).length
  · rw [if_pos hL]
    have hptr : ∀ u v,
        ptrAt (d.setSec ino.sector ((d.sec ino.sector).setLength L)) u v = ptrAt d u v := by
      intro u v
      simp only [ptrAt, Disk.setSec, Sector.setLength]
      by_cases hu : u = ino.sector
      · rw [if_pos hu, hu]
      · rw [if_neg hu]
    have hbytes : ∀ u,
        ((d.setSec ino.sector ((d.sec ino.sector).setLength L)).sec u).bytes =
          (d.sec u).bytes := by
      intro u
      simp only [Disk.setSec, Sector.setLength]
      by_cases hu : u = ino.sector
      · rw [if_pos hu, hu]
      · rw [if_neg hu]
    refine ⟨Inv_congr d _ ino.sector hptr rfl hInv,
      fun pos => blockByte_congr d _ ino.sector hptr hbytes pos, ?_, ?_⟩
    · simp [Disk.setSec, Sector.setLength]
    · simp [Disk.setSec, Sector.setLength]
      omega
  · rw [if_neg hL]
    exact ⟨hInv, fun pos => rfl, by omega, le_rfl⟩

/-- Value of the inode_read_at loop when the read range sits below the
file length and the maximal file size: exactly the per-position content
bytes, one per requested position. -/
lemma read_loop_bytes (rt : Nat) (size : Nat) :
    ∀ d offset, offset + size ≤ INODE_BYTE_MAXN →
      (offset : Int) + (size : Int) ≤ (d.sec rt).length →
      (read_loop d rt size offset).2 =
        (List.range size).map fun k => blockByte d rt (offset + k) := by
  induction size using Nat.strong_induction_on with
  | _ size ih =>
    intro d offset hbound hlen
    by_cases hsz : size = 0
    · subst hsz
      rw [read_loop, dif_pos (by
        unfold read_chunk
        omega)]
      simp
    · have hc : ¬ read_chunk d rt size offset ≤ 0 := by
        unfold read_chunk BLOCK_SECTOR_SIZE at *
        omega
      have hcn1 : 1 ≤ (read_chunk d rt size offset).toNat := by
        unfold read_chunk at *
        omega
      have hcnsize : (read_chunk d rt size offset).toNat ≤ size := by
        unfold read_chunk at *
        omega
      have hcnsec : offset % BLOCK_SECTOR_SIZE + (read_chunk d rt size offset).toNat ≤
          BLOCK_SECTOR_SIZE := by
        unfold read_chunk BLOCK_SECTOR_SIZE at *
        omega
      have hoff : offset / BLOCK_SECTOR_SIZE < NBLOCKS := by
        unfold NBLOCKS INODE_BYTE_MAXN DIRECT_SECTOR_MAXN POINTER_MAXN BLOCK_SECTOR_SIZE at *
        omega
      rw [read_loop, dif_neg hc]
      simp only [get_data_block_noalloc]
      have hrec := ih (size - (read_chunk d rt size offset).toNat) (by omega) d
        (offset + (read_chunk d rt size offset).toNat) (by omega) (by
          push_cast at hlen ⊢
          omega)
      rw [hrec]
      have hsplit : size = (read_chunk d rt size offset).toNat +
          (size - (read_chunk d rt size offset).toNat) := by omega
      conv_rhs => rw [hsplit]
      rw [List.range_add, List.map_append, List.map_map]
      congr 1
      · -- the first chunk
        have hblockeq : ∀ k, k < (read_chunk d rt size offset).toNat →
            blockByte d rt (offset + k) =
              match (get_data_block d rt offset false).2 with
              | none => 0
              | some s => (d.sec s).bytes (offset % BLOCK_SECTOR_SIZE + k) := by
          intro k hk
          have hdiv : (offset + k) / BLOCK_SECTOR_SIZE = offset / BLOCK_SECTOR_SIZE := by
            unfold BLOCK_SECTOR_SIZE at *
            omega
          have hmod : (offset + k) % BLOCK_SECTOR_SIZE = offset % BLOCK_SECTOR_SIZE + k := by
            unfold BLOCK_SECTOR_SIZE at *
            omega
          have hval : (get_data_block d rt offset false).2 =
              posSec d rt (.data (offset / BLOCK_SECTOR_SIZE)) :=
            get_data_block_noalloc_posSec d rt (offset / BLOCK_SECTOR_SIZE) hoff
          unfold blockByte
          rw [hdiv, hmod, hval]
        rcases hv : (get_data_block d rt offset false).2 with _ | s
        · apply List.ext_getElem
          · simp
          · intro k h1 h2
            simp only [List.getElem_replicate, List.getElem_map, List.getElem_range]
            rw [hblockeq k (by simpa using h1), hv]
        · apply List.ext_getElem
          · simp
          · intro k h1 h2
            simp only [List.getElem_map, List.getElem_range]
            rw [hblockeq k (by simpa using h2), hv]
      · apply List.map_congr_left
        intro k _
        simp only [Function.comp]
        congr 1
        omega

/-- Claim C1: for every inode whose pointer tree satisfies the
well-formedness invariant, every buffer and every (n, off) with
n ≤ 8 MiB − off and no deny-write in force, inode_write_at writes all n
bytes (returns n), and a subsequent inode_read_at of n bytes at off
returns exactly the bytes that were written. -/
theorem claim_c1_write_read_roundtrip (d : Disk) (ino : Inode) (buf : Nat → Nat) (n off : Nat)
    (hInv : Inv d ino.sector) (hdeny : ino.deny_write_cnt = 0)
    (hn : n + off ≤ 8388608) :
    (inode_write_at d ino buf n off).2.2 = n ∧
    (inode_read_at (inode_write_at d ino buf n off).1
        (inode_write_at d ino buf n off).2.1 n off).2 = (List.range n).map buf := by
  have hbound : off + n ≤ INODE_BYTE_MAXN := by
    unfold INODE_BYTE_MAXN DIRECT_SECTOR_MAXN POINTER_MAXN BLOCK_SECTOR_SIZE
    omega
  have hne : ¬ ino.deny_write_cnt ≠ 0 := by simp [hdeny]
  obtain ⟨dW, hWeq, hWInv, hWlen, hWin, hWout⟩ :=
    write_loop_spec ino.sector buf n d off 0 hInv hbound
  obtain ⟨hUInv, hUbb, hUge, hUmono⟩ :=
    update_length_pack dW { ino with write_cnt := ino.write_cnt + 1 }
      ((off : Int) + ((0 + n : Nat) : Int)) hWInv
  constructor
  · unfold inode_write_at
    rw [if_neg hne]
    simp [hWeq]
  · unfold inode_read_at inode_write_at
    rw [if_neg hne]
    simp only [hWeq]
    have hlen2 : (off : Int) + (n : Int) ≤
        ((update_inode_length dW { ino with write_cnt := ino.write_cnt + 1 }
          ((off : Int) + ((0 + n : Nat) : Int))).sec ino.sector).length := by
      have := hUge
      push_cast at this ⊢
      omega
    rw [read_loop_bytes ino.sector n _ off hbound hlen2]
    apply List.ext_getElem
    · simp
    · intro k h1 h2
      simp only [List.getElem_map, List.getElem_range]
      rw [hUbb (off + k)]
      rw [hWin (off + k) (Nat.le_add_right _ _) (by
        simp only [List.length_map, List.length_range] at h1
        omega)]
      congr 1
      omega

lemma Inv_emptyDisk : Inv emptyDisk 1 := by
  constructor
  · decide
  · intro p s hP hps
    cases p with
    | root =>
      have : s = 1 := by simpa [posSec] using hps.symm
      simp [this, emptyDisk]
    | ind1 => simp [posSec, nzOpt, ptrAt, emptyDisk, zeroSector] at hps
    | dbl => simp [posSec, nzOpt, ptrAt, emptyDisk, zeroSector] at hps
    | ind2 j => simp [posSec, nzOpt, ptrAt, emptyDisk, zeroSector] at hps
    | data i => simp [posSec, nzOpt, ptrAt, emptyDisk, zeroSector] at hps
  · intro p q s hP hQ h1 h2
    cases p <;> cases q <;>
      simp [posSec, nzOpt, ptrAt, emptyDisk, zeroSector] at h1 h2 ⊢

def roundtripInode : Inode :=
  { sector := 1, open_cnt := 1, removed := false, deny_write_cnt := 0, write_cnt := 0 }

/-- Witness for claim C1: write 3 bytes at offset 0 on an empty disk and
read them back. -/
theorem claim_c1_witness :
    Inv emptyDisk roundtripInode.sector ∧ roundtripInode.deny_write_cnt = 0 ∧
      3 + 0 ≤ 8388608 ∧
    ((inode_write_at emptyDisk roundtripInode (fun j => 65 + j) 3 0).2.2 = 3 ∧
      (inode_read_at (inode_write_at emptyDisk roundtripInode (fun j => 65 + j) 3 0).1
          (inode_write_at emptyDisk roundtripInode (fun j => 65 + j) 3 0).2.1 3 0).2 =
        (List.range 3).map (fun j => 65 + j)) :=
  ⟨Inv_emptyDisk, rfl, by decide,
    claim_c1_write_read_roundtrip emptyDisk roundtripInode (fun j => 65 + j) 3 0
      Inv_emptyDisk rfl (by decide)⟩

end PintOS
